import Mathlib

/-!
Verification of the Gin demo server (`main.go`).

`main.go` registers five handlers on a router obtained from `gin.Default()`.
The handler bodies are embedded from `main.go`.  The framework operations they
call (`c.Param`, `c.DefaultQuery`, `c.ShouldBindJSON`, `c.JSON`) and the
dispatcher that calls them (route lookup in the per-method radix tree,
trailing-slash redirect, 404 fallback, logger and recovery middleware) belong
to the Gin framework and to Go's `encoding/json`; they are embedded here after
the behaviour of those libraries, restricted to the features `main.go` uses.

Conventions of the embedding:
* Go strings (paths, parameter values, bodies) are Lean strings, i.e. sequences
  of Unicode characters; texts that are not valid UTF-8 are outside the model.
* A request carries its already split and decoded URL: `Path` is
  `Request.URL.Path` and `Query` lists the pairs of `Request.URL.Query()` in
  their order of appearance.
* A response is its status code and, when it was rendered by `c.JSON`, the
  rendered mapping; headers and the bodies the framework writes by itself
  (404 text, redirect note) are not modelled.
* A `float64` is the rational number it denotes, written `mant * 2 ^ exp` with
  its sign; infinities and NaN never arise from JSON.
* The route tables hold the names of the handlers; a table of code maps a name
  to the closure.  A closure of `main` can reach the variable `r`, so a handler
  receives the engine and returns it with its outcome.
-/

namespace Gin

/-! ## Values and messages -/

/-- Go value of type `float64` other than an infinity or NaN: the number
`mant * 2 ^ exp`, negated when `neg` is set.  The mantissa is odd, or the value
is a zero, written with `mant = 0` and `exp = 0`. -/
structure Float64 where
  neg : Bool
  mant : Nat
  exp : Int
  deriving DecidableEq

/-- Go value held in an `interface{}` by the handlers: a string placed in a
`gin.H` literal, or what `encoding/json` stores when it decodes into
`interface{}`. -/
inductive Value where
  | null
  | bool (b : Bool)
  | number (f : Float64)
  | str (s : String)
  | array (xs : List Value)
  | object (m : List (String × Value))

/-- Shape of `gin.H`, that is `map[string]any`: an association list with
distinct keys. -/
abbrev H := List (String × Value)

/-- Go variable of type `map[string]interface{}`: the nil map or a map. -/
abbrev GoMap := Option H

/-- Conversion of a `map[string]interface{}` variable to `interface{}`, as
done when it is stored in a `gin.H` literal. -/
def GoMap.toValue : GoMap → Value
  | none => Value.null
  | some m => Value.object m

/-- Keys of a mapping. -/
def keys (h : H) : List String := h.map Prod.fst

/-- Lookup in a mapping, as Go's `m[k]` with its presence flag. -/
def H.get (h : H) (k : String) : Option Value := (h.find? (fun kv => kv.1 == k)).map Prod.snd

/-- Request as seen by the handlers. -/
structure Request where
  Method : String
  Path : String
  Query : List (String × String)
  Header : List (String × String)
  Body : String

/-- Response written for a request: status code, and the mapping passed to
`c.JSON` when the response was rendered by it. -/
structure Response where
  status : Nat
  body : Option H

/-- Constant `http.StatusOK`. -/
def StatusOK : Nat := 200
/-- Constant `http.StatusMovedPermanently`. -/
def StatusMovedPermanently : Nat := 301
/-- Constant `http.StatusTemporaryRedirect`. -/
def StatusTemporaryRedirect : Nat := 307
/-- Constant `http.StatusBadRequest`. -/
def StatusBadRequest : Nat := 400
/-- Constant `http.StatusNotFound`. -/
def StatusNotFound : Nat := 404
/-- Constant `http.StatusInternalServerError`. -/
def StatusInternalServerError : Nat := 500

/-- Entries of `gin.Params`: the path parameters captured by the router. -/
abbrev Params := List (String × String)

/-- State of a `gin.Context` that the handlers read. -/
structure Context where
  Request : Request
  Params : Params

/-- Result of running a handler chain: a written response, or a panic that
left the chain. -/
inductive Outcome where
  | wrote (r : Response)
  | panicked (v : String)

/-- Name under which a handler is entered in a route table. -/
abbrev HandlerId := String

/-- Method `c.Param(key)`: value of the first captured parameter named `key`,
or the empty string. -/
def Context.Param (c : Context) (key : String) : String :=
  match c.Params.find? (fun kv => kv.1 == key) with
  | some kv => kv.2
  | none => ""

/-- Method `c.GetQuery(key)`: first value of the query parameter `key` and
whether the key is present. -/
def Context.GetQuery (c : Context) (key : String) : Option String :=
  (c.Request.Query.find? (fun kv => kv.1 == key)).map Prod.snd

/-- Method `c.DefaultQuery(key, defaultValue)`. -/
def Context.DefaultQuery (c : Context) (key defaultValue : String) : String :=
  match c.GetQuery key with
  | some value => value
  | none => defaultValue

/-- Method `c.JSON(code, obj)`: renders `obj` with status `code`. -/
def Context.JSON (_c : Context) (code : Nat) (obj : H) : Outcome :=
  Outcome.wrote { status := code, body := some obj }

/-! ## Route lookup -/

/-- Kinds of radix-tree nodes (`nodeType` in Gin's `tree.go`). -/
inductive NodeType where
  | static
  | root
  | param
  | catchAll
  deriving DecidableEq

/-- Node of a method tree.  The wildcard child, when there is one, is the last
child and has no entry in `indices`. -/
inductive Node where
  | mk (path : List Char) (indices : List Char) (wildChild : Bool) (nType : NodeType)
      (children : List Node) (handlers : Option HandlerId)

/-- Result of a lookup (`nodeValue`): the handler found, the captured
parameters, and the trailing-slash recommendation. -/
structure NodeValue where
  handlers : Option HandlerId
  params : Params
  tsr : Bool

mutual
/-- Lookup `n.getValue(path, ...)` of Gin's `tree.go`, for trees of static and
parameter nodes in which a node with a wildcard child has no static child (so
that the list of skipped nodes stays empty). -/
def Node.getValue : Node → List Char → Params → NodeValue
  | Node.mk pfx indices wildChild nType children handlers, path, ps =>
    if pfx.length < path.length ∧ path.take pfx.length = pfx then
      let rest := path.drop pfx.length
      match getValueIndexed children indices rest ps with
      | some v => v
      | none =>
        if wildChild = false then
          { handlers := none, params := ps, tsr := decide (rest = ['/']) && handlers.isSome }
        else getValueWild children rest ps
    else if path = pfx then
      match handlers with
      | some h => { handlers := some h, params := ps, tsr := false }
      | none =>
        if path = ['/'] ∧ wildChild = true ∧ nType ≠ NodeType.root then
          { handlers := none, params := ps, tsr := true }
        else if path = ['/'] ∧ nType = NodeType.static then
          { handlers := none, params := ps, tsr := true }
        else { handlers := none, params := ps, tsr := slashChild children indices }
    else
      { handlers := none, params := ps,
        tsr := decide (path = ['/']) || (decide (pfx = path ++ ['/']) && handlers.isSome) }
/-- Loop over `n.indices`: continues the walk in the static child whose index
is the first character of the remaining path. -/
def getValueIndexed : List Node → List Char → List Char → Params → Option NodeValue
  | c :: cs, i :: is, rest, ps =>
    if rest.head? = some i then some (Node.getValue c rest ps)
    else getValueIndexed cs is rest ps
  | _, _, _, _ => none
/-- Wildcard step: the walk enters the last child, a parameter node, which
captures the path up to the next slash. -/
def getValueWild : List Node → List Char → Params → NodeValue
  | [], _, ps => { handlers := none, params := ps, tsr := false }
  | [Node.mk wpath _ _ wType wchildren whandlers], rest, ps =>
    match wType with
    | NodeType.param =>
      let val := rest.takeWhile (fun ch => ch != '/')
      let ps1 := ps ++ [(String.mk (wpath.drop 1), String.mk val)]
      if val.length < rest.length then
        match wchildren with
        | c :: _ => Node.getValue c (rest.drop val.length) ps1
        | [] => { handlers := none, params := ps1, tsr := decide (rest.length = val.length + 1) }
      else
        match whandlers with
        | some h => { handlers := some h, params := ps1, tsr := false }
        | none => { handlers := none, params := ps1, tsr := slashOnly wchildren }
    | _ => { handlers := none, params := ps, tsr := false }
  | _ :: c :: cs, rest, ps => getValueWild (c :: cs) rest ps
/-- Check made at a node whose path is matched but has no handler: is there a
child `/` that carries a handler (or a catch-all child that does). -/
def slashChild : List Node → List Char → Bool
  | Node.mk cpath _ _ cType cchildren chandlers :: cs, i :: is =>
    if i = '/' then
      (decide (cpath.length = 1) && chandlers.isSome) ||
        (decide (cType = NodeType.catchAll) && firstHasHandlers cchildren)
    else slashChild cs is
  | _, _ => false
/-- Test `n.children[0].handlers != nil`. -/
def firstHasHandlers : List Node → Bool
  | Node.mk _ _ _ _ _ h :: _ => h.isSome
  | [] => false
/-- Check made at a parameter node without handler: is its only child the
node `/` with a handler. -/
def slashOnly : List Node → Bool
  | [Node.mk cpath cindices _ _ _ chandlers] =>
    (decide (cpath = ['/']) && chandlers.isSome) || (decide (cpath = []) && decide (cindices = ['/']))
  | _ => false
end

/-! ## Dispatch -/

/-- Middleware that `gin.Default()` attaches to the engine. -/
inductive Middleware where
  | Logger
  | Recovery

/-- Line written by the logger middleware for a served request. -/
structure LogEntry where
  status : Nat
  method : String
  path : String

/-- Output of the logger so far. -/
abbrev Log := List LogEntry

/-- Entry of `engine.trees`. -/
structure MethodTree where
  method : String
  root : Node

/-- Engine `gin.Engine`: the middleware of its root group, the per-method
trees, and the trailing-slash switch.  `RedirectFixedPath` and
`HandleMethodNotAllowed`, which `gin.New()` leaves off, are not represented.
Middleware is applied at dispatch, which agrees with Gin for middleware
attached before the routes are registered, as `gin.Default()` does. -/
structure Engine where
  Handlers : List Middleware
  trees : List MethodTree
  RedirectTrailingSlash : Bool

/-- Type `gin.HandlerFunc`.  A handler reads its context; being a closure, it
may also read and change the variables it captures, which in `main` can only be
the engine `r`.  It returns the engine as it leaves it, and its outcome. -/
abbrev HandlerFunc := Context → Engine → Engine × Outcome

/-- Code of the handlers, by name. -/
abbrev Program := HandlerId → HandlerFunc

/-- Logger middleware: after the rest of the chain has returned it writes one
line with the status of the response.  A panic passes through it. -/
def Logger (req : Request) : Log × Outcome → Log × Outcome
  | (log, Outcome.wrote r) =>
    (log ++ [{ status := r.status, method := req.Method, path := req.Path }], Outcome.wrote r)
  | (log, Outcome.panicked v) => (log, Outcome.panicked v)

/-- Modelled from the spec: the recovery middleware attached by `gin.Default()`
(`main.go`, lines 10-11) is framework code that is not among the sources.  A
fault raised while the rest of the chain executes is caught and converted to
an HTTP 500 response (`c.AbortWithStatus(500)`); a response that was written
is left as it is. -/
def Recovery : Log × Outcome → Log × Outcome
  | (log, Outcome.panicked _) =>
    (log, Outcome.wrote { status := StatusInternalServerError, body := none })
  | (log, Outcome.wrote r) => (log, Outcome.wrote r)

/-- Run of the handler chain `c.Next()`: every middleware wraps the run of the
handlers after it; the last handler is the one found by the router. -/
def runChain : List Middleware → Outcome → Request → Log → Log × Outcome
  | [], o, _, log => (log, o)
  | Middleware.Logger :: ms, o, req, log => Logger req (runChain ms o req log)
  | Middleware.Recovery :: ms, o, req, log => Recovery (runChain ms o req log)

/-- Search of `engine.trees` for the tree of a method. -/
def findTree : List MethodTree → String → Option Node
  | [], _ => none
  | t :: ts, method => if t.method = method then some t.root else findTree ts method

/-- Function `serveError(c, 404, default404Body)`: the middleware runs, then the
default 404 response is written. -/
def serveError (e : Engine) (req : Request) (log : Log) : Log × Outcome :=
  runChain e.Handlers (Outcome.wrote { status := StatusNotFound, body := none }) req log

/-- Function `redirectTrailingSlash(c)`: 301 for GET, 307 for the other
methods; no middleware runs. -/
def redirectTrailingSlash (req : Request) (log : Log) : Log × Outcome :=
  (log, Outcome.wrote
    { status := if req.Method = "GET" then StatusMovedPermanently else StatusTemporaryRedirect,
      body := none })

/-- Method `engine.handleHTTPRequest(c)`: returns the engine as the handler left
it, the output of the logger, and the outcome. -/
def Engine.handleHTTPRequest (code : Program) (e : Engine) (req : Request) (log : Log) :
    Engine × Log × Outcome :=
  match findTree e.trees req.Method with
  | none => (e, serveError e req log)
  | some root =>
    let value := root.getValue req.Path.toList []
    match value.handlers with
    | some h =>
      ((code h { Request := req, Params := value.params } e).1,
        runChain e.Handlers (code h { Request := req, Params := value.params } e).2 req log)
    | none =>
      if req.Method ≠ "CONNECT" ∧ req.Path ≠ "/" ∧ value.tsr = true
          ∧ e.RedirectTrailingSlash = true then
        (e, redirectTrailingSlash req log)
      else (e, serveError e req log)

/-- Function `gin.New()`: an engine without middleware and without routes. -/
def New : Engine := { Handlers := [], trees := [], RedirectTrailingSlash := true }

/-- Function `gin.Default()`: `gin.New()` followed by
`engine.Use(Logger(), Recovery())`. -/
def Default : Engine :=
  { Handlers := [Middleware.Logger, Middleware.Recovery], trees := [], RedirectTrailingSlash := true }

/-! ## Decoding of the request body (`encoding/json`) -/

/-- Function `isSpace` of the scanner. -/
def isSpace (c : Char) : Bool := c == ' ' || c == '\t' || c == '\r' || c == '\n'

/-- First byte of the UTF-8 encoding of a character: the byte the scanner is
looking at when it rejects the character. -/
def firstByte (c : Char) : Nat :=
  if c.toNat < 0x80 then c.toNat
  else if c.toNat < 0x800 then 0xC0 + c.toNat / 0x40
  else if c.toNat < 0x10000 then 0xE0 + c.toNat / 0x1000
  else 0xF0 + c.toNat / 0x40000

/-- Lower-case hexadecimal digit. -/
def hexDigit (n : Nat) : Char := "0123456789abcdef".toList.getD n '0'

/-- Function `quoteChar(c)`: the byte as a quoted character literal, with the
escapes of `strconv.Quote`. -/
def quoteChar (b : Nat) : String :=
  if b = 39 then String.mk [Char.ofNat 39, '\\', Char.ofNat 39, Char.ofNat 39]
  else if b = 34 then String.mk [Char.ofNat 39, Char.ofNat 34, Char.ofNat 39]
  else
    let inner : List Char :=
      if b = 92 then ['\\', '\\']
      else if (0x20 ≤ b ∧ b < 0x7F) ∨ (0xA1 ≤ b ∧ b ≤ 0xFF ∧ b ≠ 0xAD) then [Char.ofNat b]
      else if b = 7 then ['\\', 'a']
      else if b = 8 then ['\\', 'b']
      else if b = 12 then ['\\', 'f']
      else if b = 10 then ['\\', 'n']
      else if b = 13 then ['\\', 'r']
      else if b = 9 then ['\\', 't']
      else if b = 11 then ['\\', 'v']
      else if b < 0x20 ∨ b = 0x7F then ['\\', 'x', hexDigit (b / 16), hexDigit (b % 16)]
      else ['\\', 'u', '0', '0', hexDigit (b / 16), hexDigit (b % 16)]
    String.mk ([Char.ofNat 39] ++ inner ++ [Char.ofNat 39])

/-- Syntax tree of a scanned JSON value: the members of an object in document
order, repeated keys included, and a number as its literal. -/
inductive Tree where
  | null
  | bool (b : Bool)
  | number (lit : String)
  | str (s : String)
  | array (xs : List Tree)
  | object (ms : List (String × Tree))

/-- Failure of the scanner while it reads the first value of the stream: the
input ended, or a character was rejected in some context.  The third case is
the exhaustion of the recursion budget of `scanValue`; `readValue` gives a
budget that is never exhausted (`readValue_ne_fuel`). -/
inductive ScanError where
  | eof
  | invalid (c : Char) (context : String)
  | fuel

/-- Errors `ShouldBindJSON` returns for a body. -/
inductive DecodeError where
  | EOF
  | ErrUnexpectedEOF
  | SyntaxError (msg : String)
  | UnmarshalTypeError (value : String) (type : String)

/-- Method `Error()` of the decoding errors. -/
def DecodeError.Error : DecodeError → String
  | DecodeError.EOF => "EOF"
  | DecodeError.ErrUnexpectedEOF => "unexpected EOF"
  | DecodeError.SyntaxError msg => msg
  | DecodeError.UnmarshalTypeError value type =>
    "json: cannot unmarshal " ++ value ++ " into Go value of type " ++ type

/-- Piece of a scanned string literal: a character, or the code unit of a
`\u` escape. -/
inductive StrUnit where
  | lit (c : Char)
  | u (n : Nat)

/-- Scanner states inside a string literal. -/
inductive StrState where
  | plain
  | esc
  | hex (k : Nat) (acc : Nat)

/-- Value of a hexadecimal digit. -/
def hexVal (c : Char) : Option Nat :=
  if '0' ≤ c ∧ c ≤ '9' then some (c.toNat - '0'.toNat)
  else if 'a' ≤ c ∧ c ≤ 'f' then some (c.toNat - 'a'.toNat + 10)
  else if 'A' ≤ c ∧ c ≤ 'F' then some (c.toNat - 'A'.toNat + 10)
  else none

/-- Character denoted by a one-letter escape. -/
def escapeChar (c : Char) : Option Char :=
  if c = 'b' then some (Char.ofNat 8)
  else if c = 'f' then some (Char.ofNat 12)
  else if c = 'n' then some '\n'
  else if c = 'r' then some '\r'
  else if c = 't' then some '\t'
  else if c = '\\' then some '\\'
  else if c = '/' then some '/'
  else if c = Char.ofNat 34 then some (Char.ofNat 34)
  else none

/-- Scanner states `stateInString`, `stateInStringEsc` and `stateInStringEscU...`:
reads a string literal after its opening quote and returns its pieces and the
input after the closing quote. -/
def scanString : StrState → List StrUnit → List Char → Except ScanError (List StrUnit × List Char)
  | _, _, [] => Except.error ScanError.eof
  | StrState.plain, acc, c :: cs =>
    if c = Char.ofNat 34 then Except.ok (acc.reverse, cs)
    else if c = '\\' then scanString StrState.esc acc cs
    else if c.toNat < 0x20 then Except.error (ScanError.invalid c "in string literal")
    else scanString StrState.plain (StrUnit.lit c :: acc) cs
  | StrState.esc, acc, c :: cs =>
    match escapeChar c with
    | some r => scanString StrState.plain (StrUnit.lit r :: acc) cs
    | none =>
      if c = 'u' then scanString (StrState.hex 0 0) acc cs
      else Except.error (ScanError.invalid c "in string escape code")
  | StrState.hex k v, acc, c :: cs =>
    match hexVal c with
    | some d =>
      if k = 3 then scanString StrState.plain (StrUnit.u (v * 16 + d) :: acc) cs
      else scanString (StrState.hex (k + 1) (v * 16 + d)) acc cs
    | none => Except.error (ScanError.invalid c "in \\u hexadecimal character escape")

/-- Test `utf16.IsSurrogate`. -/
def isSurrogate (n : Nat) : Bool := decide (0xD800 ≤ n) && decide (n < 0xE000)

/-- Character of a lone `\u` escape: the replacement character for a
surrogate. -/
def unitChar (n : Nat) : Char := if isSurrogate n then Char.ofNat 0xFFFD else Char.ofNat n

/-- Function `unquote`: the Go string a scanned literal denotes.  A high
surrogate escape directly followed by a low surrogate escape is one
character. -/
def unquote : List StrUnit → List Char
  | [] => []
  | StrUnit.lit c :: us => c :: unquote us
  | StrUnit.u hi :: StrUnit.lit c :: us => unitChar hi :: c :: unquote us
  | [StrUnit.u hi] => [unitChar hi]
  | StrUnit.u hi :: StrUnit.u lo :: us =>
    if 0xD800 ≤ hi ∧ hi < 0xDC00 ∧ 0xDC00 ≤ lo ∧ lo < 0xE000 then
      Char.ofNat (0x10000 + (hi - 0xD800) * 0x400 + (lo - 0xDC00)) :: unquote us
    else unitChar hi :: unquote (StrUnit.u lo :: us)

/-- Scanner states inside a number: `stateNeg`, `state0`, `state1`, `stateDot`,
`stateDot0`, `stateE`, `stateESign`, `stateE0`. -/
inductive NumState where
  | neg
  | zero
  | int
  | dot
  | frac
  | e
  | esign
  | exp
  deriving DecidableEq

/-- Can a number end in this state. -/
def NumState.accepting : NumState → Bool
  | NumState.zero => true
  | NumState.int => true
  | NumState.frac => true
  | NumState.exp => true
  | _ => false

/-- One step of the number states: the next state, `none` when the character
does not continue the number. -/
def NumState.step : NumState → Char → Option NumState
  | NumState.neg, c =>
    if c = '0' then some NumState.zero else if '1' ≤ c ∧ c ≤ '9' then some NumState.int else none
  | NumState.int, c =>
    if '0' ≤ c ∧ c ≤ '9' then some NumState.int
    else if c = '.' then some NumState.dot
    else if c = 'e' ∨ c = 'E' then some NumState.e else none
  | NumState.zero, c =>
    if c = '.' then some NumState.dot else if c = 'e' ∨ c = 'E' then some NumState.e else none
  | NumState.dot, c => if '0' ≤ c ∧ c ≤ '9' then some NumState.frac else none
  | NumState.frac, c =>
    if '0' ≤ c ∧ c ≤ '9' then some NumState.frac
    else if c = 'e' ∨ c = 'E' then some NumState.e else none
  | NumState.e, c =>
    if c = '+' ∨ c = '-' then some NumState.esign
    else if '0' ≤ c ∧ c ≤ '9' then some NumState.exp else none
  | NumState.esign, c => if '0' ≤ c ∧ c ≤ '9' then some NumState.exp else none
  | NumState.exp, c => if '0' ≤ c ∧ c ≤ '9' then some NumState.exp else none

/-- Context named in the error for a character rejected inside a number. -/
def NumState.context : NumState → String
  | NumState.neg => "in numeric literal"
  | NumState.dot => "after decimal point in numeric literal"
  | _ => "in exponent of numeric literal"

/-- Reads the rest of a number.  Returns the literal and the input from the
first character that does not belong to it. -/
def scanNumber : NumState → List Char → List Char → Except ScanError (List Char × List Char)
  | st, acc, [] => if st.accepting then Except.ok (acc.reverse, []) else Except.error ScanError.eof
  | st, acc, c :: cs =>
    match st.step c with
    | some st1 => scanNumber st1 (c :: acc) cs
    | none =>
      if st.accepting then Except.ok (acc.reverse, c :: cs)
      else Except.error (ScanError.invalid c st.context)

/-- Reads the rest of `true`, `false` or `null` after its first letter. -/
def scanLiteral (name : String) : List Char → List Char → Except ScanError (List Char)
  | [], input => Except.ok input
  | _ :: _, [] => Except.error ScanError.eof
  | e :: es, c :: cs =>
    if c = e then scanLiteral name es cs
    else Except.error (ScanError.invalid c
      ("in literal " ++ name ++ " (expecting " ++ quoteChar e.toNat ++ ")"))

/-- Constant `maxNestingDepth` of the scanner. -/
def maxNestingDepth : Nat := 10000

/-- Leading white space is skipped before a token. -/
def skipSpace (input : List Char) : List Char := input.dropWhile isSpace

mutual
/-- Scanner state `stateBeginValue` and the states that follow it: reads one
JSON value and returns its syntax tree and the remaining input.  The first
argument bounds the number of nested calls, the second is the number of
enclosing arrays and objects. -/
def scanValue : Nat → Nat → List Char → Except ScanError (Tree × List Char)
  | 0, _, _ => Except.error ScanError.fuel
  | fuel + 1, depth, input =>
    match skipSpace input with
    | [] => Except.error ScanError.eof
    | c :: cs =>
      if c = '{' then
        if maxNestingDepth < depth + 1 then
          Except.error (ScanError.invalid c "exceeded max depth")
        else
          match skipSpace cs with
          | [] => Except.error ScanError.eof
          | k :: ks =>
            if k = '}' then Except.ok (Tree.object [], ks)
            else scanMembers fuel (depth + 1) [] (k :: ks)
      else if c = '[' then
        if maxNestingDepth < depth + 1 then
          Except.error (ScanError.invalid c "exceeded max depth")
        else
          match skipSpace cs with
          | [] => Except.error ScanError.eof
          | k :: ks =>
            if k = ']' then Except.ok (Tree.array [], ks)
            else scanElements fuel (depth + 1) [] (k :: ks)
      else if c = Char.ofNat 34 then
        match scanString StrState.plain [] cs with
        | Except.ok (us, rest) => Except.ok (Tree.str (String.mk (unquote us)), rest)
        | Except.error e => Except.error e
      else if c = '-' then
        match scanNumber NumState.neg [c] cs with
        | Except.ok (lit, rest) => Except.ok (Tree.number (String.mk lit), rest)
        | Except.error e => Except.error e
      else if c = '0' then
        match scanNumber NumState.zero [c] cs with
        | Except.ok (lit, rest) => Except.ok (Tree.number (String.mk lit), rest)
        | Except.error e => Except.error e
      else if '1' ≤ c ∧ c ≤ '9' then
        match scanNumber NumState.int [c] cs with
        | Except.ok (lit, rest) => Except.ok (Tree.number (String.mk lit), rest)
        | Except.error e => Except.error e
      else if c = 't' then
        match scanLiteral "true" ['r', 'u', 'e'] cs with
        | Except.ok rest => Except.ok (Tree.bool true, rest)
        | Except.error e => Except.error e
      else if c = 'f' then
        match scanLiteral "false" ['a', 'l', 's', 'e'] cs with
        | Except.ok rest => Except.ok (Tree.bool false, rest)
        | Except.error e => Except.error e
      else if c = 'n' then
        match scanLiteral "null" ['u', 'l', 'l'] cs with
        | Except.ok rest => Except.ok (Tree.null, rest)
        | Except.error e => Except.error e
      else Except.error (ScanError.invalid c "looking for beginning of value")
/-- Elements of an array, from the beginning of an element to the closing
bracket. -/
def scanElements : Nat → Nat → List Tree → List Char → Except ScanError (Tree × List Char)
  | 0, _, _, _ => Except.error ScanError.fuel
  | fuel + 1, depth, acc, input =>
    match scanValue fuel depth input with
    | Except.error e => Except.error e
    | Except.ok (v, rest) =>
      match skipSpace rest with
      | [] => Except.error ScanError.eof
      | c :: cs =>
        if c = ',' then scanElements fuel depth (acc ++ [v]) cs
        else if c = ']' then Except.ok (Tree.array (acc ++ [v]), cs)
        else Except.error (ScanError.invalid c "after array element")
/-- Members of an object, from the beginning of a key to the closing brace. -/
def scanMembers : Nat → Nat → List (String × Tree) → List Char →
    Except ScanError (Tree × List Char)
  | 0, _, _, _ => Except.error ScanError.fuel
  | fuel + 1, depth, acc, input =>
    match skipSpace input with
    | [] => Except.error ScanError.eof
    | q :: qs =>
      if q = Char.ofNat 34 then
        match scanString StrState.plain [] qs with
        | Except.error e => Except.error e
        | Except.ok (us, afterKey) =>
          match skipSpace afterKey with
          | [] => Except.error ScanError.eof
          | colon :: afterColon =>
            if colon = ':' then
              match scanValue fuel depth afterColon with
              | Except.error e => Except.error e
              | Except.ok (v, rest) =>
                match skipSpace rest with
                | [] => Except.error ScanError.eof
                | c :: cs =>
                  if c = ',' then scanMembers fuel depth (acc ++ [(String.mk (unquote us), v)]) cs
                  else if c = '}' then
                    Except.ok (Tree.object (acc ++ [(String.mk (unquote us), v)]), cs)
                  else Except.error (ScanError.invalid c "after object key:value pair")
            else Except.error (ScanError.invalid colon "after object key")
      else Except.error (ScanError.invalid q "looking for beginning of object key string")
end

/-- Method `dec.readValue()`: scans the first value of the body. -/
def readValue (body : List Char) : Except ScanError (Tree × List Char) :=
  scanValue (2 * body.length + 2) 0 body

/-- Value of a string of decimal digits. -/
def digitsVal (ds : List Char) : Nat := ds.foldl (fun n c => n * 10 + (c.toNat - '0'.toNat)) 0

/-- Number of binary digits of `n`, counted by halving; the first argument
bounds the number of halvings. -/
def bitLenAux : Nat → Nat → Nat
  | 0, _ => 0
  | fuel + 1, n => if n = 0 then 0 else bitLenAux fuel (n / 2) + 1

/-- Number of binary digits of `n`. -/
def bitLen (n : Nat) : Nat := bitLenAux n n

/-- Integer part of the binary logarithm of the positive rational `n / d`. -/
def floorLog2 (n d : Nat) : Int :=
  let k0 : Int := (bitLen n : Int) - (bitLen d : Int)
  if (if 0 ≤ k0 then d * 2 ^ k0.toNat ≤ n else d ≤ n * 2 ^ (-k0).toNat) then k0 else k0 - 1

/-- Removes the trailing zero bits of a mantissa; the first argument bounds the
number of bits removed. -/
def stripZeros : Nat → Nat → Int → Nat × Int
  | 0, m, e => (m, e)
  | fuel + 1, m, e =>
    if m = 0 then (0, 0) else if m % 2 = 0 then stripZeros fuel (m / 2) (e + 1) else (m, e)

/-- Nearest `float64` to the positive rational `n / d`, ties to the even
mantissa: the mantissa and exponent of the result, or `none` when the result
would be an infinity.  The unit in the last place is `2 ^ e` with
`e = max (k - 52) (-1074)`, where `2 ^ k ≤ n / d < 2 ^ (k + 1)`. -/
def roundFloat64 (n d : Nat) : Option (Nat × Int) :=
  let k := floorLog2 n d
  if 1024 ≤ k then none
  else
    let e : Int := max (k - 52) (-1074)
    let num := if 0 ≤ e then n else n * 2 ^ (-e).toNat
    let den := if 0 ≤ e then d * 2 ^ e.toNat else d
    let q := num / den
    let rem := num % den
    let m := if 2 * rem < den then q else if den < 2 * rem then q + 1 else q + q % 2
    if e = 971 ∧ m = 2 ^ 53 then none else some (stripZeros 64 m e)

/-- Function `d.convertNumber(s)`, that is `strconv.ParseFloat(s, 64)` on a JSON
number: the nearest `float64` to the exact value of the literal, or `none` when
the literal is out of range (the conversion reports a range error).  A value
too small in magnitude becomes a zero without error. -/
def convertNumber (lit : List Char) : Option Float64 :=
  let unsigned := lit.dropWhile (fun c => c == '-')
  let mant := unsigned.takeWhile (fun c => c != 'e' && c != 'E')
  let expPart := (unsigned.dropWhile (fun c => c != 'e' && c != 'E')).drop 1
  let intDigits := mant.takeWhile (fun c => c != '.')
  let fracDigits := (mant.dropWhile (fun c => c != '.')).drop 1
  let m := digitsVal (intDigits ++ fracDigits)
  let expDigits := digitsVal (expPart.dropWhile (fun c => c == '+' || c == '-'))
  let neg := decide (lit.head? = some '-')
  if m = 0 then some { neg := neg, mant := 0, exp := 0 }
  else
    let rounded :=
      if expPart.head? = some '-' then roundFloat64 m (10 ^ (expDigits + fracDigits.length))
      else if fracDigits.length ≤ expDigits then
        roundFloat64 (m * 10 ^ (expDigits - fracDigits.length)) 1
      else roundFloat64 m (10 ^ (fracDigits.length - expDigits))
    match rounded with
    | none => none
    | some (fm, fe) => some { neg := neg, mant := fm, exp := fe }

/-- Go map assignment `m[k] = v`. -/
def H.set (m : H) (k : String) (v : Value) : H :=
  if m.any (fun kv => kv.1 == k) then m.map (fun kv => if kv.1 == k then (k, v) else kv)
  else m ++ [(k, v)]

mutual
/-- Method `d.valueInterface()`: the Go value stored for a syntax tree.  The
result is an error carrying the literal of the first number, in document
order, that `convertNumber` rejects: the decoder saves its first error and
returns it at the end. -/
def valueInterface : Tree → Except String Value
  | Tree.null => Except.ok Value.null
  | Tree.bool b => Except.ok (Value.bool b)
  | Tree.str s => Except.ok (Value.str s)
  | Tree.number lit =>
    match convertNumber lit.toList with
    | some f => Except.ok (Value.number f)
    | none => Except.error lit
  | Tree.array xs =>
    match arrayInterface xs with
    | Except.ok vs => Except.ok (Value.array vs)
    | Except.error lit => Except.error lit
  | Tree.object ms =>
    match objectInterface ms [] with
    | Except.ok m => Except.ok (Value.object m)
    | Except.error lit => Except.error lit
/-- Method `d.arrayInterface()`. -/
def arrayInterface : List Tree → Except String (List Value)
  | [] => Except.ok []
  | x :: xs =>
    match valueInterface x with
    | Except.error lit => Except.error lit
    | Except.ok v =>
      match arrayInterface xs with
      | Except.error lit => Except.error lit
      | Except.ok vs => Except.ok (v :: vs)
/-- Method `d.objectInterface()`: the members are assigned to the map in
document order, so that the last value of a repeated key remains. -/
def objectInterface : List (String × Tree) → H → Except String H
  | [], m => Except.ok m
  | (k, x) :: ms, m =>
    match valueInterface x with
    | Except.error lit => Except.error lit
    | Except.ok v => objectInterface ms (H.set m k v)
end

/-- Name of the Go type `map[string]interface{}` in error messages. -/
def mapTypeName : String := "map[string]interface \x7b\x7d"

/-- Method `d.unmarshal(v)` for `v` a pointer to a nil `map[string]interface{}`:
an object fills a new map, `null` leaves the map nil, any other value is a
type error. -/
def unmarshal : Tree → Except DecodeError GoMap
  | Tree.object ms =>
    match objectInterface ms [] with
    | Except.error lit =>
      Except.error (DecodeError.UnmarshalTypeError ("number " ++ lit) "float64")
    | Except.ok m => Except.ok (some m)
  | Tree.null => Except.ok none
  | Tree.array _ => Except.error (DecodeError.UnmarshalTypeError "array" mapTypeName)
  | Tree.str _ => Except.error (DecodeError.UnmarshalTypeError "string" mapTypeName)
  | Tree.number _ => Except.error (DecodeError.UnmarshalTypeError "number" mapTypeName)
  | Tree.bool _ => Except.error (DecodeError.UnmarshalTypeError "bool" mapTypeName)

/-- Method `decoder.Decode(&obj)`: the first value of the body is scanned and
then stored; what follows it in the body is not read. -/
def Decode (body : String) : Except DecodeError GoMap :=
  match readValue body.toList with
  | Except.error ScanError.eof =>
    if body.toList.any (fun c => !isSpace c) then Except.error DecodeError.ErrUnexpectedEOF
    else Except.error DecodeError.EOF
  | Except.error (ScanError.invalid c context) =>
    Except.error (DecodeError.SyntaxError
      ("invalid character " ++ quoteChar (firstByte c) ++ " " ++ context))
  | Except.error ScanError.fuel => Except.error DecodeError.ErrUnexpectedEOF
  | Except.ok (v, _) => unmarshal v

/-- Method `c.ShouldBindJSON(&obj)` for `obj` a nil `map[string]interface{}`:
the JSON binding decodes the request body; the validator has nothing to check
on a map. -/
def Context.ShouldBindJSON (c : Context) : Except DecodeError GoMap := Decode c.Request.Body

end Gin

/-! ## The program `main.go` -/

namespace Main

open Gin

/-- Handler of `GET /` (lines 14-19). -/
def handleRoot : HandlerFunc := fun c r =>
  (r, c.JSON StatusOK [("message", Value.str "Hello, World!"), ("status", Value.str "success")])

/-- Handler of `GET /user/:name` (lines 22-28). -/
def handleUser : HandlerFunc := fun c r =>
  let name := c.Param "name"
  (r, c.JSON StatusOK
    [("message", Value.str ("Hello, " ++ name ++ "!")), ("user", Value.str name)])

/-- Handler of `GET /search` (lines 31-39). -/
def handleSearch : HandlerFunc := fun c r =>
  let query := c.DefaultQuery "q" ""
  let limit := c.DefaultQuery "limit" "10"
  (r, c.JSON StatusOK [("query", Value.str query), ("limit", Value.str limit)])

/-- Handler of `POST /data` (lines 42-56). -/
def handleData : HandlerFunc := fun c r =>
  match c.ShouldBindJSON with
  | Except.error err => (r, c.JSON StatusBadRequest [("error", Value.str err.Error)])
  | Except.ok json =>
    (r, c.JSON StatusOK
      [("message", Value.str "Data received successfully"), ("data", json.toValue)])

/-- Handler of `GET /health` (lines 59-63). -/
def handleHealth : HandlerFunc := fun c r =>
  (r, c.JSON StatusOK [("status", Value.str "healthy")])

/-- Code of the five closures of `main`, under the names used in the route
tables.  Any other name stands for a handler that writes nothing, which Gin
answers with an empty 200 response; no table of `main` holds such a name. -/
def code : Program := fun h =>
  if h = "handleRoot" then handleRoot
  else if h = "handleUser" then handleUser
  else if h = "handleSearch" then handleSearch
  else if h = "handleData" then handleData
  else if h = "handleHealth" then handleHealth
  else fun _ r => (r, Outcome.wrote { status := StatusOK, body := none })

/-- Tree of the method GET after the registrations of `/`, `/user/:name`,
`/search` and `/health`: the root `/` with the static children `user/` (whose
wildcard child is `:name`), `search` and `health`. -/
def getTree : Node :=
  Node.mk "/".toList "ush".toList false NodeType.root
    [ Node.mk "user/".toList [] true NodeType.static
        [Node.mk ":name".toList [] false NodeType.param [] (some "handleUser")] none,
      Node.mk "search".toList [] false NodeType.static [] (some "handleSearch"),
      Node.mk "health".toList [] false NodeType.static [] (some "handleHealth") ]
    (some "handleRoot")

/-- Tree of the method POST after the registration of `/data`. -/
def postTree : Node :=
  Node.mk "/data".toList [] false NodeType.root [] (some "handleData")

/-- Engine `r` of `main` when `r.Run` is reached: `gin.Default()` with the five
routes registered. -/
def r : Engine :=
  { Default with
    trees := [{ method := "GET", root := getTree }, { method := "POST", root := postTree }] }

/-- Running server: the engine and what the logger has written. -/
structure Server where
  engine : Engine
  log : Log

/-- Method `engine.ServeHTTP`: serves one request. -/
def Server.ServeHTTP (code : Program) (s : Server) (req : Request) : Server × Outcome :=
  ({ engine := (s.engine.handleHTTPRequest code req s.log).1,
     log := (s.engine.handleHTTPRequest code req s.log).2.1 },
    (s.engine.handleHTTPRequest code req s.log).2.2)

/-- Modelled from the spec: what becomes of the process when a fault leaves the
handler chain is decided by the Go runtime and `net/http`, which are not among
the sources.  After the spec, a fault that the dispatcher does not catch
terminates the process: the outcome of that request is the fault and the
requests after it are not served.  The result lists the outcomes of the
requests that were served. -/
def Server.serveAll (code : Program) : Server → List Request → Server × List Outcome
  | s, [] => (s, [])
  | s, req :: reqs =>
    match (s.ServeHTTP code req).2 with
    | Outcome.panicked v => ((s.ServeHTTP code req).1, [Outcome.panicked v])
    | Outcome.wrote resp =>
      ((Server.serveAll code (s.ServeHTTP code req).1 reqs).1,
        Outcome.wrote resp :: (Server.serveAll code (s.ServeHTTP code req).1 reqs).2)

/-- Function `main`: the server started by `r.Run(":8080")`. -/
def main : Server := { engine := r, log := [] }

/-- Response of the running program to a single request. -/
def serve (req : Request) : Outcome := (main.ServeHTTP code req).2

/-! ## Route table and body kinds, as the claims name them -/

/-- Node `user/` of the GET tree with its parameter child. -/
def userNode : Node :=
  Node.mk "user/".toList [] true NodeType.static
    [Node.mk ":name".toList [] false NodeType.param [] (some "handleUser")] none

/-- Path of the form `/user/<segment>`, the segment non-empty and free of `/`. -/
def isUserPath (path : List Char) : Bool :=
  path.take 6 == "/user/".toList && path.drop 6 != [] && (path.drop 6).all (fun ch => ch != '/')

/-- Path of the form `/user/<segment>/`, the segment free of `/` (and possibly
empty). -/
def isUserPathSlash (path : List Char) : Bool :=
  path.take 6 == "/user/".toList && (path.drop 6).getLast? == some '/' &&
    (path.drop 6).dropLast.all (fun ch => ch != '/')

/-- The five routes registered by `main.go`, as a test on method and path. -/
def matchesRoute (req : Request) : Bool :=
  (req.Method == "GET" &&
    (req.Path == "/" || isUserPath req.Path.toList || req.Path == "/search" ||
      req.Path == "/health")) ||
  (req.Method == "POST" && req.Path == "/data")

/-- Requests that match no route and for which the router recommends the path
with the final slash removed or added: a registered path followed by one more
slash, and the empty path. -/
def extraSlash (req : Request) : Bool :=
  (req.Method == "GET" &&
    (req.Path == "" || req.Path == "//" || req.Path == "/search/" || req.Path == "/health/" ||
      isUserPathSlash req.Path.toList)) ||
  (req.Method == "POST" && req.Path == "/data/")

/-- Does the body begin with a JSON object or with `null`. -/
def objectOrNull (body : String) : Bool :=
  match readValue body.toList with
  | Except.ok (Tree.object _, _) => true
  | Except.ok (Tree.null, _) => true
  | _ => false

/-- Is the whole body one JSON value, with nothing but white space around it. -/
def validJSON (body : String) : Bool :=
  match readValue body.toList with
  | Except.ok (_, rest) => rest.all isSpace
  | Except.error _ => false

/-- Handler that raises a fault, used to exercise the recovery middleware. -/
def handleBoom : HandlerFunc := fun _ r => (r, Outcome.panicked "boom")

/-- Code with the handler `handleBoom` under every name. -/
def boomCode : Program := fun _ => handleBoom

/-- Method tree with the single route `/boom`. -/
def boomTrees : List MethodTree :=
  [{ method := "GET", root := Node.mk "/boom".toList [] false NodeType.root [] (some "boom") }]

/-- Handler that writes to the variable it captures: it switches the
trailing-slash redirect of the engine off.  No handler of `main.go` is like
it; it shows what a handler with shared state does to later requests. -/
def handleSwitch : HandlerFunc := fun c r =>
  ({ r with RedirectTrailingSlash := false }, c.JSON StatusOK [("status", Value.str "switched")])

/-- Code of `main` with `handleSwitch` in the place of the health check. -/
def switchCode : Program := fun h => if h = "handleHealth" then handleSwitch else code h

end Main

/-! ## Theorems -/

namespace Main

open Gin

theorem skipSpace_length (input : List Char) : (skipSpace input).length ≤ input.length :=
  (List.dropWhile_sublist _).length_le

theorem skipSpace_cons_length (input : List Char) (c : Char) (cs : List Char)
    (h : skipSpace input = c :: cs) : cs.length < input.length := by
  have := skipSpace_length input
  rw [h] at this
  simp at this
  omega

theorem scanString_length (st : StrState) (acc : List StrUnit) (input : List Char)
    (us : List StrUnit) (rest : List Char)
    (h : scanString st acc input = Except.ok (us, rest)) : rest.length < input.length := by
  induction input generalizing st acc with
  | nil => cases st <;> simp [scanString] at h
  | cons c cs ih =>
    cases st with
    | plain =>
      simp only [scanString] at h
      repeat' split at h
      all_goals first
        | contradiction
        | (cases h; solve | simp)
        | (have hlt := ih _ _ h; simp; omega)
    | esc =>
      simp only [scanString] at h
      repeat' split at h
      all_goals first
        | contradiction
        | (have hlt := ih _ _ h; simp; omega)
    | hex k v =>
      simp only [scanString] at h
      repeat' split at h
      all_goals first
        | contradiction
        | (have hlt := ih _ _ h; simp; omega)

theorem scanString_ne_fuel (st : StrState) (acc : List StrUnit) (input : List Char) :
    scanString st acc input ≠ Except.error ScanError.fuel := by
  induction input generalizing st acc with
  | nil => cases st <;> simp [scanString]
  | cons c cs ih =>
    cases st <;> simp only [scanString] <;> repeat' split
    all_goals first
      | exact ih _ _
      | simp

theorem scanNumber_length (st : NumState) (acc : List Char) (input : List Char)
    (lit rest : List Char)
    (h : scanNumber st acc input = Except.ok (lit, rest)) : rest.length ≤ input.length := by
  induction input generalizing st acc with
  | nil =>
    simp only [scanNumber] at h
    split at h <;> cases h
    simp
  | cons c cs ih =>
    simp only [scanNumber] at h
    repeat' split at h
    all_goals first
      | contradiction
      | (cases h; solve | simp)
      | (have hlt := ih _ _ h; simp; omega)

theorem scanNumber_ne_fuel (st : NumState) (acc : List Char) (input : List Char) :
    scanNumber st acc input ≠ Except.error ScanError.fuel := by
  induction input generalizing st acc with
  | nil => simp only [scanNumber]; split <;> simp
  | cons c cs ih =>
    simp only [scanNumber]
    repeat' split
    all_goals first
      | exact ih _ _
      | simp

theorem scanLiteral_length (name : String) (expected input rest : List Char)
    (h : scanLiteral name expected input = Except.ok rest) : rest.length ≤ input.length := by
  induction expected generalizing input with
  | nil => simp only [scanLiteral] at h; cases h; exact Nat.le_refl _
  | cons e es ih =>
    cases input with
    | nil => simp [scanLiteral] at h
    | cons c cs =>
      simp only [scanLiteral] at h
      split at h
      · have := ih _ h; simp; omega
      · cases h

theorem scanLiteral_ne_fuel (name : String) (expected input : List Char) :
    scanLiteral name expected input ≠ Except.error ScanError.fuel := by
  induction expected generalizing input with
  | nil => simp [scanLiteral]
  | cons e es ih =>
    cases input with
    | nil => simp [scanLiteral]
    | cons c cs =>
      simp only [scanLiteral]
      split
      · exact ih _
      · simp

theorem scan_progress (fuel : Nat) :
    (∀ depth input v rest, scanValue fuel depth input = Except.ok (v, rest) →
        rest.length < input.length) ∧
    (∀ depth acc input v rest, scanElements fuel depth acc input = Except.ok (v, rest) →
        rest.length < input.length) ∧
    (∀ depth acc input v rest, scanMembers fuel depth acc input = Except.ok (v, rest) →
        rest.length < input.length) := by
  induction fuel with
  | zero =>
    refine ⟨?_, ?_, ?_⟩ <;> intros <;> simp_all [scanValue, scanElements, scanMembers]
  | succ fuel ih =>
    obtain ⟨ihV, ihE, ihM⟩ := ih
    refine ⟨?_, ?_, ?_⟩
    · intro depth input v rest h
      simp only [scanValue] at h
      split at h
      · cases h
      · rename_i c cs hskip
        have hcs := skipSpace_cons_length input c cs hskip
        repeat' split at h
        all_goals first
          | contradiction
          | (rename_i hk _
             have := skipSpace_cons_length _ _ _ hk
             cases h
             omega)
          | (rename_i hk _
             have h1 := skipSpace_length cs
             rw [hk] at h1
             have h2 := ihM _ _ _ _ _ h
             omega)
          | (rename_i hk _
             have h1 := skipSpace_length cs
             rw [hk] at h1
             have h2 := ihE _ _ _ _ _ h
             omega)
          | (rename_i hs
             have := scanString_length _ _ _ _ _ hs
             cases h
             omega)
          | (rename_i hs
             have := scanNumber_length _ _ _ _ _ hs
             cases h
             omega)
          | (rename_i hs
             have := scanLiteral_length _ _ _ _ hs
             cases h
             omega)
    · intro depth acc input v rest h
      simp only [scanElements] at h
      split at h
      · cases h
      · rename_i v1 rest1 hv
        have h1 := ihV _ _ _ _ hv
        split at h
        · cases h
        · rename_i c cs hskip
          have h2 := skipSpace_cons_length _ _ _ hskip
          repeat' split at h
          all_goals first
            | contradiction
            | (cases h; omega)
            | (have hlt := ihE _ _ _ _ _ h; omega)
    · intro depth acc input v rest h
      simp only [scanMembers] at h
      split at h
      · cases h
      · rename_i q qs hskip
        have h0 := skipSpace_cons_length _ _ _ hskip
        split at h
        · split at h
          · cases h
          · rename_i us afterKey hs
            have h1 := scanString_length _ _ _ _ _ hs
            split at h
            · cases h
            · rename_i colon afterColon hskip2
              have h2 := skipSpace_cons_length _ _ _ hskip2
              split at h
              · split at h
                · cases h
                · rename_i v1 rest1 hv
                  have h3 := ihV _ _ _ _ hv
                  split at h
                  · cases h
                  · rename_i c cs hskip3
                    have h4 := skipSpace_cons_length _ _ _ hskip3
                    repeat' split at h
                    all_goals first
                      | contradiction
                      | (cases h; omega)
                      | (have hlt := ihM _ _ _ _ _ h; omega)
              · cases h
        · cases h

theorem scan_fuel (fuel : Nat) :
    (∀ depth input, 2 * input.length + 1 ≤ fuel →
        scanValue fuel depth input ≠ Except.error ScanError.fuel) ∧
    (∀ depth acc input, 2 * input.length + 2 ≤ fuel →
        scanElements fuel depth acc input ≠ Except.error ScanError.fuel) ∧
    (∀ depth acc input, 2 * input.length + 2 ≤ fuel →
        scanMembers fuel depth acc input ≠ Except.error ScanError.fuel) := by
  induction fuel with
  | zero => refine ⟨?_, ?_, ?_⟩ <;> intros <;> omega
  | succ fuel ih =>
    obtain ⟨ihV, ihE, ihM⟩ := ih
    refine ⟨?_, ?_, ?_⟩
    · intro depth input hf
      simp only [scanValue]
      split
      · simp
      · rename_i c cs hskip
        have hcs := skipSpace_cons_length input c cs hskip
        repeat' split
        all_goals first
          | solve | simp
          | (rename_i hk _
             have h1 := skipSpace_length cs
             rw [hk] at h1
             simp only [List.length_cons] at h1
             first
               | exact ihM _ _ _ (by simp only [List.length_cons]; omega)
               | exact ihE _ _ _ (by simp only [List.length_cons]; omega))
          | (rename_i hs; intro hh; cases hh; exact scanString_ne_fuel _ _ _ hs)
          | (rename_i hs; intro hh; cases hh; exact scanNumber_ne_fuel _ _ _ hs)
          | (rename_i hs; intro hh; cases hh; exact scanLiteral_ne_fuel _ _ _ hs)
    · intro depth acc input hf
      simp only [scanElements]
      split
      · rename_i e hv
        intro hh
        cases hh
        exact ihV _ _ (by omega) hv
      · rename_i v1 rest1 hv
        have h1 := (scan_progress fuel).1 _ _ _ _ hv
        split
        · simp
        · rename_i c cs hskip
          have h2 := skipSpace_cons_length _ _ _ hskip
          repeat' split
          all_goals first
            | solve | simp
            | exact ihE _ _ _ (by omega)
    · intro depth acc input hf
      simp only [scanMembers]
      split
      · simp
      · rename_i q qs hskip
        have h0 := skipSpace_cons_length _ _ _ hskip
        split
        · split
          · rename_i e hs
            intro hh
            cases hh
            exact scanString_ne_fuel _ _ _ hs
          · rename_i us afterKey hs
            have h1 := scanString_length _ _ _ _ _ hs
            split
            · simp
            · rename_i colon afterColon hskip2
              have h2 := skipSpace_cons_length _ _ _ hskip2
              split
              · split
                · rename_i e hv
                  intro hh
                  cases hh
                  exact ihV _ _ (by omega) hv
                · rename_i v1 rest1 hv
                  have h3 := (scan_progress fuel).1 _ _ _ _ hv
                  split
                  · simp
                  · rename_i c cs hskip3
                    have h4 := skipSpace_cons_length _ _ _ hskip3
                    repeat' split
                    all_goals first
                      | solve | simp
                      | exact ihM _ _ _ (by omega)
              · simp
        · simp

/-- The budget given by `readValue` is never exhausted. -/
theorem readValue_ne_fuel (body : List Char) : readValue body ≠ Except.error ScanError.fuel :=
  (scan_fuel (2 * body.length + 2)).1 0 body (by omega)

/-- Claim C6: every GET request to `/`, whatever its query string, headers or
body, is answered with status 200 and the mapping of exactly the two entries
`message = "Hello, World!"` and `status = "success"`. -/
theorem root_hello (query header : List (String × String)) (body : String) :
    serve { Method := "GET", Path := "/", Query := query, Header := header, Body := body } =
      Outcome.wrote
        { status := 200,
          body := some [("message", Value.str "Hello, World!"), ("status", Value.str "success")] } := rfl

/-- Claim C7: every GET request to `/health`, whatever its query string,
headers or body, is answered with status 200 and the mapping with the single
entry `status = "healthy"`. -/
theorem health_ok (query header : List (String × String)) (body : String) :
    serve { Method := "GET", Path := "/health", Query := query, Header := header, Body := body } =
      Outcome.wrote { status := 200, body := some [("status", Value.str "healthy")] } := rfl

/-- Claim C2: every GET request to `/search` is answered with status 200 and a
mapping of exactly two entries: `query` is the value of the query parameter `q`
when it is present and `""` otherwise, `limit` is the value of the query
parameter `limit` when it is present and the string `"10"` otherwise.  The
value of `limit` is any string and is returned as that string. -/
theorem search_echo (query header : List (String × String)) (body : String) :
    serve { Method := "GET", Path := "/search", Query := query, Header := header, Body := body } =
      Outcome.wrote
        { status := 200,
          body := some [("query", Value.str ((List.lookup "q" query).getD "")),
                        ("limit", Value.str ((List.lookup "limit" query).getD "10"))] } := by
  have key : ∀ (k d : String), Context.DefaultQuery { Request := { Method := "GET", Path := "/search", Query := query, Header := header, Body := body }, Params := [] } k d = (List.lookup k query).getD d := by
    intro k d
    simp only [Context.DefaultQuery, Context.GetQuery]
    induction query with
    | nil => rfl
    | cons kv rest ih =>
      obtain ⟨a, b⟩ := kv
      simp only [List.find?, List.lookup]
      by_cases hk : a = k
      · subst hk; simp
      · have : (k == a) = false := by simpa using fun h => hk h.symm
        have h2 : (a == k) = false := by simpa using hk
        simp [this, h2] at ih ⊢
        exact ih
  show Outcome.wrote _ = _
  rw [← key, ← key]
  rfl

theorem serve_data (query header : List (String × String)) (body : String) :
    serve { Method := "POST", Path := "/data", Query := query, Header := header, Body := body } =
      (runChain [Middleware.Logger, Middleware.Recovery]
        (handleData { Request := { Method := "POST", Path := "/data", Query := query,
                                   Header := header, Body := body }, Params := [] } r).2
        { Method := "POST", Path := "/data", Query := query, Header := header, Body := body } []).2 :=
  rfl

theorem get_cons (kv : String × Value) (m : H) (k2 : String) :
    H.get (kv :: m) k2 = if kv.1 = k2 then some kv.2 else H.get m k2 := by
  unfold H.get
  rw [List.find?_cons]
  by_cases h : kv.1 = k2
  · simp [h]
  · have hb : (kv.1 == k2) = false := by simpa using h
    simp [h, hb]

theorem get_append_single (m : H) (k k2 : String) (v : Value)
    (hnot : m.any (fun kv => kv.1 == k) = false) :
    H.get (m ++ [(k, v)]) k2 = if k2 = k then some v else H.get m k2 := by
  induction m with
  | nil =>
    rw [List.nil_append, get_cons]
    by_cases h : k2 = k
    · subst h; simp
    · have h2 : ¬ k = k2 := fun e => h e.symm
      simp [h, h2, H.get]
  | cons kv m ih =>
    rw [List.any_cons, Bool.or_eq_false_iff] at hnot
    have hk : ¬ kv.1 = k := by simpa using hnot.1
    rw [List.cons_append, get_cons, get_cons, ih hnot.2]
    by_cases h : kv.1 = k2
    · have h2 : ¬ k2 = k := fun e => hk (h.trans e)
      simp [h, h2]
    · simp [h]

theorem get_map_set (m : H) (k k2 : String) (v : Value) :
    H.get (m.map (fun kv => if kv.1 == k then (k, v) else kv)) k2 =
      if k2 = k then (if m.any (fun kv => kv.1 == k) = true then some v else none)
      else H.get m k2 := by
  induction m with
  | nil => simp [H.get]
  | cons kv m ih =>
    rw [List.map_cons, get_cons, get_cons, ih, List.any_cons]
    by_cases hk : kv.1 = k
    · by_cases h : k2 = k
      · subst h; simp [hk]
      · have h2 : ¬ k = k2 := fun e => h e.symm
        have h3 : ¬ kv.1 = k2 := fun e => h (e.symm.trans hk)
        simp [hk, h2, h, h3]
    · have hb : (kv.1 == k) = false := by simpa using hk
      by_cases h : k2 = k
      · subst h
        rw [hb, Bool.false_or]
        simp [hk]
      · simp [hb, h]

theorem get_set (m : H) (k k2 : String) (v : Value) :
    H.get (H.set m k v) k2 = if k2 = k then some v else H.get m k2 := by
  unfold H.set
  split
  · rename_i hany
    rw [get_map_set, if_pos hany]
  · rename_i hany
    exact get_append_single m k k2 v (Bool.eq_false_iff.mpr hany)

/-- What the decoder stores under a key: the value of the last member of the
object with that key; a key that no member has keeps what the map held. -/
theorem objectInterface_get (ms : List (String × Tree)) (acc m : H) (k : String)
    (h : objectInterface ms acc = Except.ok m) :
    H.get m k =
      match ms.reverse.find? (fun kx => kx.1 == k) with
      | some kx => (valueInterface kx.2).toOption
      | none => H.get acc k := by
  induction ms generalizing acc with
  | nil =>
    simp only [objectInterface] at h
    cases h
    rfl
  | cons kx rest ih =>
    obtain ⟨k1, x⟩ := kx
    simp only [objectInterface] at h
    cases hv : valueInterface x with
    | error lit => rw [hv] at h; cases h
    | ok v =>
      rw [hv] at h
      rw [ih _ h, List.reverse_cons, List.find?_append]
      cases hf : rest.reverse.find? (fun kx => kx.1 == k) with
      | some kx => rfl
      | none =>
        simp only [Option.none_or, List.find?_cons, List.find?_nil]
        rw [get_set]
        by_cases hk : k = k1
        · subst hk
          simp [hv, Except.toOption]
        · have hb : (k1 == k) = false := by simpa using fun e : k1 = k => hk e.symm
          simp [hk, hb]

/-- Claim C3: when the body of a POST request to `/data` begins with a JSON
object with the members `ms`, and the decoder stores the map `m` for them, then
`c.ShouldBindJSON` binds the variable `json` to `m`, and the response has status
200 and exactly the two entries `message = "Data received successfully"` and
`data = m`: the decoded map is echoed. -/
theorem data_echo (query header : List (String × String)) (body : String)
    (ms : List (String × Tree)) (rest : List Char) (m : H)
    (hscan : readValue body.toList = Except.ok (Tree.object ms, rest))
    (hconv : objectInterface ms [] = Except.ok m) :
    Context.ShouldBindJSON
        { Request := { Method := "POST", Path := "/data", Query := query, Header := header,
                       Body := body },
          Params := [] } = Except.ok (some m) ∧
      serve { Method := "POST", Path := "/data", Query := query, Header := header,
              Body := body } =
        Outcome.wrote
          { status := 200,
            body := some [("message", Value.str "Data received successfully"),
                          ("data", Value.object m)] } := by
  have hbind : Context.ShouldBindJSON
      { Request := { Method := "POST", Path := "/data", Query := query, Header := header,
                     Body := body },
        Params := [] } = Except.ok (some m) := by
    simp only [Context.ShouldBindJSON, Decode, hscan, unmarshal, hconv]
  refine ⟨hbind, ?_⟩
  rw [serve_data]
  simp only [handleData, hbind]
  rfl

theorem append_ne_empty (a b : String) (h : a ≠ "") : a ++ b ≠ "" := by
  intro hab
  apply h
  have h1 : (a ++ b).data = "".data := congrArg String.data hab
  rw [String.data_append] at h1
  exact String.ext (List.append_eq_nil.mp h1).1

theorem typeError_ne_empty (value type : String) :
    (DecodeError.UnmarshalTypeError value type).Error ≠ "" := by
  simp only [DecodeError.Error]
  simp only [String.append_assoc]
  exact append_ne_empty _ _ (by decide)

theorem unmarshal_error_ne_empty (v : Tree) (e : DecodeError)
    (he : unmarshal v = Except.error e) : e.Error ≠ "" := by
  cases v with
  | null => simp [unmarshal] at he
  | bool b => simp only [unmarshal] at he; cases he; exact typeError_ne_empty _ _
  | number lit => simp only [unmarshal] at he; cases he; exact typeError_ne_empty _ _
  | str s => simp only [unmarshal] at he; cases he; exact typeError_ne_empty _ _
  | array xs => simp only [unmarshal] at he; cases he; exact typeError_ne_empty _ _
  | object ms =>
    simp only [unmarshal] at he
    split at he
    · cases he; exact typeError_ne_empty _ _
    · cases he

theorem Decode_error_ne_empty (body : String) (e : DecodeError) (he : Decode body = Except.error e) :
    e.Error ≠ "" := by
  unfold Decode at he
  split at he
  · split at he <;> (cases he; decide)
  · cases he
    simp only [DecodeError.Error]
    simp only [String.append_assoc]
    exact append_ne_empty _ _ (by decide)
  · cases he; decide
  · exact unmarshal_error_ne_empty _ _ he

theorem Decode_malformed (body : String) (h : objectOrNull body = false) :
    ∃ e, Decode body = Except.error e ∧
      (e = DecodeError.EOF ∨ e = DecodeError.ErrUnexpectedEOF ∨
        (∃ c context, e = DecodeError.SyntaxError
          ("invalid character " ++ quoteChar (firstByte c) ++ " " ++ context)) ∨
        ∃ kind, e = DecodeError.UnmarshalTypeError kind mapTypeName) := by
  unfold objectOrNull at h
  unfold Decode
  cases hr : readValue body.toList with
  | ok p =>
    obtain ⟨v, rest⟩ := p
    rw [hr] at h
    cases v with
    | null => simp at h
    | object ms => simp at h
    | bool b => exact ⟨_, rfl, Or.inr (Or.inr (Or.inr ⟨_, rfl⟩))⟩
    | number lit => exact ⟨_, rfl, Or.inr (Or.inr (Or.inr ⟨_, rfl⟩))⟩
    | str s => exact ⟨_, rfl, Or.inr (Or.inr (Or.inr ⟨_, rfl⟩))⟩
    | array xs => exact ⟨_, rfl, Or.inr (Or.inr (Or.inr ⟨_, rfl⟩))⟩
  | error err =>
    cases err with
    | eof =>
      simp only
      split
      · exact ⟨_, rfl, Or.inr (Or.inl rfl)⟩
      · exact ⟨_, rfl, Or.inl rfl⟩
    | fuel => exact absurd hr (readValue_ne_fuel _)
    | invalid c context => exact ⟨_, rfl, Or.inr (Or.inr (Or.inl ⟨c, context, rfl⟩))⟩

/-- Claim C4, amended: when the body of a POST request to `/data` is not valid
JSON and does not begin with a well-formed JSON object or `null`, binding fails
with an error of the decoder (`EOF`, `unexpected EOF`, a syntax error
`invalid character ...`, or a type error for the first value), the response
has status 400 and its mapping has the single entry `error`, whose value is
the message of that error and is not empty; the keys `message` and `data` are
absent. -/
theorem data_parse_error (query header : List (String × String)) (body : String)
    (hbad : validJSON body = false ∧ objectOrNull body = false) :
    ∃ e, Context.ShouldBindJSON
          { Request := { Method := "POST", Path := "/data", Query := query, Header := header,
                         Body := body },
            Params := [] } = Except.error e ∧
      (e = DecodeError.EOF ∨ e = DecodeError.ErrUnexpectedEOF ∨
        (∃ c context, e = DecodeError.SyntaxError
          ("invalid character " ++ quoteChar (firstByte c) ++ " " ++ context)) ∨
        ∃ kind, e = DecodeError.UnmarshalTypeError kind mapTypeName) ∧
      e.Error ≠ "" ∧
      serve { Method := "POST", Path := "/data", Query := query, Header := header,
              Body := body } =
        Outcome.wrote { status := 400, body := some [("error", Value.str e.Error)] } ∧
      keys [("error", Value.str e.Error)] = ["error"] ∧
      H.get [("error", Value.str e.Error)] "message" = none ∧
      H.get [("error", Value.str e.Error)] "data" = none := by
  obtain ⟨e, hd, hshape⟩ := Decode_malformed body hbad.2
  refine ⟨e, hd, hshape, Decode_error_ne_empty body e hd, ?_, rfl, rfl, rfl⟩
  rw [serve_data]
  simp only [handleData, Context.ShouldBindJSON, hd]
  rfl

theorem take_eq_iff (pfx p : List Char) :
    (pfx.length < p.length ∧ p.take pfx.length = pfx) ↔ ∃ r, r ≠ [] ∧ p = pfx ++ r := by
  constructor
  · rintro ⟨hlen, htake⟩
    refine ⟨p.drop pfx.length, ?_, ?_⟩
    · intro h
      have := congrArg List.length h
      simp at this
      omega
    · conv_lhs => rw [← List.take_append_drop pfx.length p, htake]
  · rintro ⟨r, hr, rfl⟩
    constructor
    · have : 0 < r.length := List.length_pos.mpr hr
      simp; omega
    · simp

theorem leaf_getValue (pfx : List Char) (ty : NodeType) (h : HandlerId) (p : List Char)
    (ps : Params) :
    Node.getValue (Node.mk pfx [] false ty [] (some h)) p ps =
      if pfx.length < p.length ∧ p.take pfx.length = pfx then
        { handlers := none, params := ps, tsr := decide (p.drop pfx.length = ['/']) }
      else if p = pfx then { handlers := some h, params := ps, tsr := false }
      else { handlers := none, params := ps,
             tsr := decide (p = ['/']) || decide (pfx = p ++ ['/']) } := by
  simp [Node.getValue, getValueIndexed]

theorem leaf_getValue_of_ne (pfx : List Char) (ty : NodeType) (h : HandlerId) (p : List Char)
    (ps : Params) (hne : p ≠ ['/']) (hend : ∀ q, pfx ≠ q ++ ['/']) :
    Node.getValue (Node.mk pfx [] false ty [] (some h)) p ps =
      if p = pfx then { handlers := some h, params := ps, tsr := false }
      else { handlers := none, params := ps, tsr := decide (p = pfx ++ ['/']) } := by
  rw [leaf_getValue]
  by_cases hext : pfx.length < p.length ∧ p.take pfx.length = pfx
  · rw [if_pos hext]
    obtain ⟨r, hr, rfl⟩ := (take_eq_iff pfx p).mp hext
    have h1 : pfx ++ r ≠ pfx := by
      intro h
      exact hr (List.append_right_eq_self.mp h)
    rw [if_neg h1]
    simp
  · rw [if_neg hext]
    by_cases hp : p = pfx
    · simp [hp]
    · rw [if_neg hp, if_neg hp]
      have h2 : p ≠ pfx ++ ['/'] := by
        intro h
        exact hext ((take_eq_iff pfx p).mpr ⟨['/'], by simp, h⟩)
      simp [hne, hend p, h2]

theorem userNode_getValue (p : List Char) (ps : Params) :
    Node.getValue userNode p ps =
      if 5 < p.length ∧ p.take 5 = "user/".toList then
        if ((p.drop 5).takeWhile (fun ch => ch != '/')).length < (p.drop 5).length then
          { handlers := none,
            params := ps ++ [("name", String.mk ((p.drop 5).takeWhile (fun ch => ch != '/')))],
            tsr := decide ((p.drop 5).length =
              ((p.drop 5).takeWhile (fun ch => ch != '/')).length + 1) }
        else
          { handlers := some "handleUser",
            params := ps ++ [("name", String.mk ((p.drop 5).takeWhile (fun ch => ch != '/')))],
            tsr := false }
      else if p = "user/".toList then { handlers := none, params := ps, tsr := false }
      else { handlers := none, params := ps, tsr := decide (p = ['/']) } := by
  have h5 : "user/".toList.length = 5 := rfl
  have hname : String.mk (":name".toList.drop 1) = "name" := rfl
  simp only [userNode, Node.getValue, getValueIndexed, getValueWild, slashChild, slashOnly, h5,
    hname]
  by_cases h1 : 5 < p.length ∧ p.take 5 = "user/".toList
  · simp only [h1, and_self, if_true]
    simp
  · simp only [h1, if_false]
    by_cases h2 : p = "user/".toList
    · subst h2
      simp
    · have h3 : ¬ p = ['u', 's', 'e', 'r', '/'] := h2
      simp [h3]

theorem getTree_getValue_cons (d : Char) (t : List Char) :
    getTree.getValue ('/' :: d :: t) [] =
      if d = 'u' then userNode.getValue (d :: t) []
      else if d = 's' then
        Node.getValue (Node.mk "search".toList [] false NodeType.static [] (some "handleSearch"))
          (d :: t) []
      else if d = 'h' then
        Node.getValue (Node.mk "health".toList [] false NodeType.static [] (some "handleHealth"))
          (d :: t) []
      else { handlers := none, params := [], tsr := decide (d :: t = ['/']) } := by
  have h1 : "/".toList = ['/'] := rfl
  have h2 : "ush".toList = ['u', 's', 'h'] := rfl
  rw [getTree, Node.getValue]
  simp only [h1, h2, getValueIndexed, userNode]
  by_cases hu : d = 'u'
  · subst hu; simp
  · by_cases hs : d = 's'
    · subst hs; simp
    · by_cases hh : d = 'h'
      · subst hh; simp
      · have e1 : ('u' = d) = False := by simpa using fun h => hu h.symm
        have e2 : ('s' = d) = False := by simpa using fun h => hs h.symm
        have e3 : ('h' = d) = False := by simpa using fun h => hh h.symm
        simp [hu, hs, hh, e1, e2, e3]

theorem getTree_getValue_other (c : Char) (t : List Char) (hc : c ≠ '/') :
    getTree.getValue (c :: t) [] = { handlers := none, params := [], tsr := false } := by
  have h1 : "/".toList = ['/'] := rfl
  rw [getTree, Node.getValue]
  simp [h1, hc]

theorem takeWhile_full (seg : List Char) :
    ((seg.takeWhile (fun ch => ch != '/')).length < seg.length) ↔
      seg.all (fun ch => ch != '/') = false := by
  induction seg with
  | nil => simp
  | cons c cs ih =>
    by_cases hc : c = '/'
    · subst hc; simp [List.takeWhile]
    · have : (c != '/') = true := by simpa using hc
      simp [List.takeWhile, this, ih]

theorem takeWhile_slash (seg : List Char)
    (hlt : (seg.takeWhile (fun ch => ch != '/')).length < seg.length) :
    (seg.length = (seg.takeWhile (fun ch => ch != '/')).length + 1) ↔
      (seg.getLast? = some '/' ∧ seg.dropLast.all (fun ch => ch != '/') = true) := by
  induction seg with
  | nil => simp at hlt
  | cons c cs ih =>
    by_cases hc : c = '/'
    · subst hc
      cases cs with
      | nil => simp [List.takeWhile]
      | cons d ds => simp [List.takeWhile, List.dropLast]
    · have hb : (c != '/') = true := by simpa using hc
      have hlt2 : (cs.takeWhile (fun ch => ch != '/')).length < cs.length := by
        simpa [List.takeWhile, hb] using hlt
      cases cs with
      | nil => simp at hlt2
      | cons d ds =>
        have := ih hlt2
        simp only [List.takeWhile, hb, List.length_cons, Nat.add_right_cancel_iff] at this ⊢
        rw [this]
        simp [List.getLast?_cons_cons, List.dropLast, hc]

theorem decide_eq_beq (a b : List Char) : decide (a = b) = (a == b) := by
  by_cases h : a = b <;> simp [h]

theorem getTree_miss (p : List Char)
    (h : (p == "/".toList || isUserPath p || p == "/search".toList || p == "/health".toList)
      = false) :
    (getTree.getValue p []).handlers = none ∧
      (getTree.getValue p []).tsr =
        (p == [] || p == "//".toList || p == "/search/".toList || p == "/health/".toList ||
          isUserPathSlash p) := by
  have e1 : "/".toList = ['/'] := rfl
  have e2 : "/search".toList = ['/', 's', 'e', 'a', 'r', 'c', 'h'] := rfl
  have e3 : "/health".toList = ['/', 'h', 'e', 'a', 'l', 't', 'h'] := rfl
  have e4 : "//".toList = ['/', '/'] := rfl
  have e5 : "/search/".toList = ['/', 's', 'e', 'a', 'r', 'c', 'h', '/'] := rfl
  have e6 : "/health/".toList = ['/', 'h', 'e', 'a', 'l', 't', 'h', '/'] := rfl
  have e7 : "/user/".toList = ['/', 'u', 's', 'e', 'r', '/'] := rfl
  have e8 : "user/".toList = ['u', 's', 'e', 'r', '/'] := rfl
  have e9 : "search".toList = ['s', 'e', 'a', 'r', 'c', 'h'] := rfl
  have e10 : "health".toList = ['h', 'e', 'a', 'l', 't', 'h'] := rfl
  rw [e1, e2, e3] at h
  rw [e4, e5, e6]
  simp only [isUserPath, isUserPathSlash, e7] at h ⊢
  cases p with
  | nil => exact ⟨rfl, rfl⟩
  | cons c t =>
    by_cases hc : c = '/'
    swap
    · rw [getTree_getValue_other c t hc]
      simp [hc]
    subst hc
    cases t with
    | nil => simp at h
    | cons d t =>
      rw [getTree_getValue_cons]
      by_cases hu : d = 'u'
      · subst hu
        rw [if_pos rfl, userNode_getValue, e8]
        by_cases h1 : 5 < ('u' :: t).length ∧ ('u' :: t).take 5 = ['u', 's', 'e', 'r', '/']
        · rw [if_pos h1]
          have htake : t.take 4 = ['s', 'e', 'r', '/'] := by simpa using h1.2
          have hlen : 4 < t.length := by
            have := h1.1
            simp at this
            omega
          have hdrop : t.drop 4 ≠ [] := by
            intro hd
            have := congrArg List.length hd
            simp at this
            omega
          have hseg : List.drop 5 ('u' :: t) = t.drop 4 := rfl
          rw [hseg]
          by_cases h2 : ((t.drop 4).takeWhile (fun ch => ch != '/')).length < (t.drop 4).length
          · rw [if_pos h2]
            refine ⟨rfl, ?_⟩
            have h3 := takeWhile_slash _ h2
            simp only [List.take_succ_cons, List.drop_succ_cons, htake]
            by_cases h4 : (t.drop 4).length =
                ((t.drop 4).takeWhile (fun ch => ch != '/')).length + 1
            · have := h3.mp h4
              simp [h4, this.1, this.2]
            · have h5 : ¬ ((t.drop 4).getLast? = some '/' ∧
                  (t.drop 4).dropLast.all (fun ch => ch != '/') = true) := fun hh => h4 (h3.mpr hh)
              simp only [h4, decide_False]
              by_cases h6 : (t.drop 4).getLast? = some '/'
              · have h7 : (t.drop 4).dropLast.all (fun ch => ch != '/') = false := by
                  cases hx : (t.drop 4).dropLast.all (fun ch => ch != '/')
                  · rfl
                  · exact absurd ⟨h6, hx⟩ h5
                simp [h6, h7]
              · simp [h6]
          · exfalso
            have h3 : (t.drop 4).all (fun ch => ch != '/') = true := by
              cases hx : (t.drop 4).all (fun ch => ch != '/')
              · exact absurd ((takeWhile_full _).mpr hx) h2
              · rfl
            simp [htake, hdrop, h3] at h
        · rw [if_neg h1]
          have hns : ¬ (t.take 4 = ['s', 'e', 'r', '/'] ∧ 4 < t.length) := by
            intro hh
            exact h1 ⟨by simp; omega, by simpa using hh.1⟩
          by_cases h2 : 'u' :: t = ['u', 's', 'e', 'r', '/']
          · rw [if_pos h2]
            have ht : t = ['s', 'e', 'r', '/'] := by simpa using h2
            subst ht
            exact ⟨rfl, rfl⟩
          · rw [if_neg h2]
            refine ⟨rfl, ?_⟩
            have ht : ¬ t = ['s', 'e', 'r', '/'] := by simpa using h2
            by_cases h3 : t.take 4 = ['s', 'e', 'r', '/']
            · have hlen : ¬ 4 < t.length := fun hl => hns ⟨h3, hl⟩
              have hlen2 : t.length ≤ 4 := by omega
              have : t.take 4 = t := List.take_of_length_le hlen2
              exact absurd (this ▸ h3) ht
            · simp [h3]
      · rw [if_neg hu]
        by_cases hs : d = 's'
        · subst hs
          rw [if_pos rfl, leaf_getValue_of_ne _ _ _ _ _ (by simp) (by rw [e9]; intro q; intro hq
                                                                      have := congrArg List.getLast? hq
                                                                      simp at this)]
          rw [e9]
          by_cases h1 : 's' :: t = ['s', 'e', 'a', 'r', 'c', 'h']
          · simp at h1
            subst h1
            simp at h
          · rw [if_neg h1]
            refine ⟨rfl, ?_⟩
            simp [decide_eq_beq]
        · rw [if_neg hs]
          by_cases hh : d = 'h'
          · subst hh
            rw [if_pos rfl, leaf_getValue_of_ne _ _ _ _ _ (by simp) (by rw [e10]; intro q; intro hq
                                                                        have := congrArg List.getLast? hq
                                                                        simp at this)]
            rw [e10]
            by_cases h1 : 'h' :: t = ['h', 'e', 'a', 'l', 't', 'h']
            · simp at h1
              subst h1
              simp at h
            · rw [if_neg h1]
              refine ⟨rfl, ?_⟩
              simp [decide_eq_beq]
          · rw [if_neg hh]
            refine ⟨rfl, ?_⟩
            by_cases hd : d = '/'
            · subst hd
              cases t <;> simp
            · simp [hu, hs, hh, hd]

theorem beq_toList (s t : String) : (s == t) = (s.toList == t.toList) := by
  by_cases h : s = t
  · subst h; simp
  · have h2 : ¬ s.data = t.data := fun hh => h (String.ext hh)
    simp [h, h2]

theorem serve_eq (req : Request) : serve req = (r.handleHTTPRequest code req []).2.2 := rfl

theorem handle_GET (prog : Program) (path : String) (query header : List (String × String))
    (body : String) (log : Log) :
    r.handleHTTPRequest prog
        { Method := "GET", Path := path, Query := query, Header := header, Body := body } log =
      match (getTree.getValue path.toList []).handlers with
      | some h =>
        ((prog h { Request := { Method := "GET", Path := path, Query := query, Header := header,
                                Body := body },
                   Params := (getTree.getValue path.toList []).params } r).1,
          runChain [Middleware.Logger, Middleware.Recovery]
            (prog h { Request := { Method := "GET", Path := path, Query := query,
                                   Header := header, Body := body },
                      Params := (getTree.getValue path.toList []).params } r).2
            { Method := "GET", Path := path, Query := query, Header := header, Body := body } log)
      | none =>
        if path ≠ "/" ∧ (getTree.getValue path.toList []).tsr = true then
          (r, log, Outcome.wrote { status := StatusMovedPermanently, body := none })
        else
          (r, log ++ [{ status := StatusNotFound, method := "GET", path := path }],
            Outcome.wrote { status := StatusNotFound, body := none }) := by
  simp only [Engine.handleHTTPRequest, r, findTree, Default, if_true]
  cases (getTree.getValue path.toList []).handlers with
  | some h => rfl
  | none =>
    have h1 : "GET" ≠ "CONNECT" := by decide
    simp [redirectTrailingSlash, serveError, runChain, Logger, Recovery, h1]

theorem handle_POST (prog : Program) (path : String) (query header : List (String × String))
    (body : String) (log : Log) :
    r.handleHTTPRequest prog
        { Method := "POST", Path := path, Query := query, Header := header, Body := body } log =
      match (postTree.getValue path.toList []).handlers with
      | some h =>
        ((prog h { Request := { Method := "POST", Path := path, Query := query,
                                Header := header, Body := body },
                   Params := (postTree.getValue path.toList []).params } r).1,
          runChain [Middleware.Logger, Middleware.Recovery]
            (prog h { Request := { Method := "POST", Path := path, Query := query,
                                   Header := header, Body := body },
                      Params := (postTree.getValue path.toList []).params } r).2
            { Method := "POST", Path := path, Query := query, Header := header, Body := body } log)
      | none =>
        if path ≠ "/" ∧ (postTree.getValue path.toList []).tsr = true then
          (r, log, Outcome.wrote { status := StatusTemporaryRedirect, body := none })
        else
          (r, log ++ [{ status := StatusNotFound, method := "POST", path := path }],
            Outcome.wrote { status := StatusNotFound, body := none }) := by
  have h1 : ¬ ("GET" = "POST") := by decide
  simp only [Engine.handleHTTPRequest, r, findTree, Default, if_true, h1, if_false]
  cases (postTree.getValue path.toList []).handlers with
  | some h => rfl
  | none =>
    have h2 : "POST" ≠ "CONNECT" := by decide
    have h3 : ¬ ("POST" = "GET") := by decide
    simp [redirectTrailingSlash, serveError, runChain, Logger, Recovery, h2, h3]

theorem handle_other (prog : Program) (method path : String)
    (query header : List (String × String)) (body : String) (log : Log)
    (hG : method ≠ "GET") (hP : method ≠ "POST") :
    r.handleHTTPRequest prog
        { Method := method, Path := path, Query := query, Header := header, Body := body } log =
      (r, log ++ [{ status := StatusNotFound, method := method, path := path }],
        Outcome.wrote { status := StatusNotFound, body := none }) := by
  have h1 : ¬ ("GET" = method) := fun h => hG h.symm
  have h2 : ¬ ("POST" = method) := fun h => hP h.symm
  simp [Engine.handleHTTPRequest, r, findTree, Default, h1, h2, serveError, runChain, Logger,
    Recovery]

theorem extraSlash_GET (path : String) (query header : List (String × String)) (body : String) :
    extraSlash { Method := "GET", Path := path, Query := query, Header := header, Body := body } =
      (path.toList == [] || path.toList == "//".toList || path.toList == "/search/".toList ||
        path.toList == "/health/".toList || isUserPathSlash path.toList) := by
  simp only [extraSlash, beq_toList path]
  simp

theorem postTree_getValue (p : List Char) (hp : p ≠ "/data".toList) :
    (postTree.getValue p []).handlers = none ∧
      ((p ≠ ['/'] ∧ (postTree.getValue p []).tsr = true) ↔ p = "/data/".toList) := by
  have e1 : "/data".toList = ['/', 'd', 'a', 't', 'a'] := rfl
  have e2 : "/data/".toList = ['/', 'd', 'a', 't', 'a', '/'] := rfl
  rw [e1] at hp
  rw [e2]
  by_cases h1 : p = ['/']
  · subst h1
    exact ⟨rfl, by simp⟩
  · rw [postTree, e1, leaf_getValue_of_ne _ _ _ _ _ h1 (by
      intro q hq
      have := congrArg List.getLast? hq
      simp at this)]
    rw [if_neg hp]
    simp [h1]

/-- Claim C5, amended: a request that matches none of the five registered
routes is answered with status 404, unless the router's trailing-slash
redirect applies to it (GET with path `/search/`, `/health/`, `/user/<segment>/`,
`//` or the empty path, POST with path `/data/`); in that case the status is
301 for GET and 307 for POST.  No mapping is rendered in either case. -/
theorem unmatched_status (req : Request) (h : matchesRoute req = false) :
    serve req =
      Outcome.wrote
        { status := if extraSlash req = true then
                      (if req.Method = "GET" then StatusMovedPermanently
                       else StatusTemporaryRedirect)
                    else StatusNotFound,
          body := none } := by
  obtain ⟨method, path, query, header, body⟩ := req
  rw [serve_eq]
  by_cases hG : method = "GET"
  · subst hG
    have hroute : (path.toList == "/".toList || isUserPath path.toList ||
        path.toList == "/search".toList || path.toList == "/health".toList) = false := by
      have := h
      simp only [matchesRoute, beq_toList path] at this
      simpa using this
    obtain ⟨hnone, htsr⟩ := getTree_miss _ hroute
    have hpath : path ≠ "/" := by
      intro hp
      subst hp
      simp [matchesRoute] at h
    rw [handle_GET, extraSlash_GET]
    simp only [hnone, htsr]
    generalize (path.toList == [] || path.toList == "//".toList ||
          path.toList == "/search/".toList || path.toList == "/health/".toList ||
          isUserPathSlash path.toList) = b
    cases b <;> simp [hpath]
  · by_cases hP : method = "POST"
    · subst hP
      have hdata : path.toList ≠ "/data".toList := by
        intro hp
        have : path = "/data" := String.ext hp
        subst this
        simp [matchesRoute] at h
      obtain ⟨hnone, htsr⟩ := postTree_getValue _ hdata
      have hx : extraSlash { Method := "POST", Path := path, Query := query, Header := header,
                             Body := body } = (path.toList == "/data/".toList) := by
        simp only [extraSlash, beq_toList path]
        simp
      have hroot : path ≠ "/" ↔ path.toList ≠ ['/'] := by
        constructor
        · intro hne hl
          exact hne (String.ext hl)
        · intro hne hl
          subst hl
          exact hne rfl
      rw [handle_POST, hx]
      simp only [hnone, hroot, htsr]
      by_cases hs : path.toList = "/data/".toList
      · have hb : (path.toList == "/data/".toList) = true := by simpa using hs
        have hs2 : path.data = ['/', 'd', 'a', 't', 'a', '/'] := hs
        rw [hb]
        simp [hs2]
      · have hb : (path.toList == "/data/".toList) = false := by simpa using hs
        have hs2 : ¬ path.data = ['/', 'd', 'a', 't', 'a', '/'] := hs
        rw [hb]
        simp [hs2]
    · rw [handle_other _ _ _ _ _ _ _ hG hP]
      have hx : extraSlash { Method := method, Path := path, Query := query, Header := header,
                             Body := body } = false := by
        simp [extraSlash, hG, hP]
      simp [hx]

theorem takeWhile_all (seg : List Char) (h : ∀ ch ∈ seg, ch ≠ '/') :
    seg.takeWhile (fun ch => ch != '/') = seg := by
  induction seg with
  | nil => rfl
  | cons c cs ih =>
    have hc : (c != '/') = true := by simpa using h c (List.mem_cons_self _ _)
    simp only [List.takeWhile, hc]
    rw [ih (fun ch hch => h ch (List.mem_cons_of_mem _ hch))]

theorem user_lookup (seg : List Char) (hne : seg ≠ []) (hslash : ∀ ch ∈ seg, ch ≠ '/') :
    Node.getValue getTree ('/' :: 'u' :: ("ser/".toList ++ seg)) [] =
      { handlers := some "handleUser", params := [("name", String.mk seg)], tsr := false } := by
  have hlen : 0 < seg.length := List.length_pos.mpr hne
  rw [getTree_getValue_cons, if_pos rfl, userNode_getValue]
  have h1 : 5 < ('u' :: ("ser/".toList ++ seg)).length ∧
      ('u' :: ("ser/".toList ++ seg)).take 5 = "user/".toList := by
    constructor
    · have h4 : "ser/".toList.length = 4 := rfl
      simp only [List.length_cons, List.length_append, h4]
      omega
    · simp
  have h2 : ('u' :: ("ser/".toList ++ seg)).drop 5 = seg := by simp
  rw [if_pos h1, h2, takeWhile_all _ hslash, if_neg (Nat.lt_irrefl _)]
  rfl

/-- Claim C1, amended: for every non-empty string `s` without `/`, a GET request
to `/user/` followed by `s` is answered with status 200 and exactly the two
entries `message = "Hello, " ++ s ++ "!"` and `user = s`. -/
theorem user_greeting (s : String) (query header : List (String × String)) (body : String)
    (hs : s ≠ "") (hslash : ∀ ch ∈ s.toList, ch ≠ '/') :
    serve { Method := "GET", Path := "/user/" ++ s, Query := query, Header := header,
            Body := body } =
      Outcome.wrote
        { status := 200,
          body := some [("message", Value.str ("Hello, " ++ s ++ "!")), ("user", Value.str s)] } := by
  have hp : ("/user/" ++ s).toList = '/' :: 'u' :: ("ser/".toList ++ s.toList) := by
    rw [String.toList, String.data_append]
    rfl
  have hne : s.toList ≠ [] := fun h => hs (String.ext h)
  rw [serve_eq, handle_GET, hp]
  simp only [user_lookup s.toList hne hslash]
  rfl

/-- The test `matchesRoute` is exact: a request that matches one of the five
routes reaches its handler, which renders a mapping with status 200 or 400. -/
theorem matched_reaches_handler (req : Request) (h : matchesRoute req = true) :
    ∃ status obj, serve req = Outcome.wrote { status := status, body := some obj } ∧
      (status = 200 ∨ status = 400) := by
  obtain ⟨method, path, query, header, body⟩ := req
  simp only [matchesRoute, Bool.or_eq_true, Bool.and_eq_true, beq_iff_eq] at h
  rcases h with ⟨hm, hp⟩ | ⟨hm, hp⟩
  · subst hm
    rcases hp with ((hp | hp) | hp) | hp
    · subst hp; exact ⟨200, _, rfl, Or.inl rfl⟩
    · simp only [isUserPath, Bool.and_eq_true, beq_iff_eq, bne_iff_ne, ne_eq,
        List.all_eq_true] at hp
      obtain ⟨⟨htake, hne⟩, hall⟩ := hp
      have hpath : path.toList = '/' :: 'u' :: ("ser/".toList ++ path.toList.drop 6) := by
        conv_lhs => rw [← List.take_append_drop 6 path.toList, htake]
        rfl
      refine ⟨200, [("message", Value.str ("Hello, " ++ String.mk (path.toList.drop 6) ++ "!")),
        ("user", Value.str (String.mk (path.toList.drop 6)))], ?_, Or.inl rfl⟩
      rw [serve_eq, handle_GET, hpath]
      simp only [user_lookup _ hne hall]
      rfl
    · subst hp; exact ⟨200, _, rfl, Or.inl rfl⟩
    · subst hp; exact ⟨200, _, rfl, Or.inl rfl⟩
  · subst hm
    subst hp
    rw [serve_data]
    simp only [handleData, Context.ShouldBindJSON]
    cases Decode body with
    | error e => exact ⟨400, _, rfl, Or.inr rfl⟩
    | ok m => exact ⟨200, _, rfl, Or.inl rfl⟩

theorem runChain_default (o : Outcome) (req : Request) (log : Log) :
    runChain [Middleware.Logger, Middleware.Recovery] o req log =
      match o with
      | Outcome.wrote resp =>
        (log ++ [{ status := resp.status, method := req.Method, path := req.Path }],
          Outcome.wrote resp)
      | Outcome.panicked _ =>
        (log ++ [{ status := StatusInternalServerError, method := req.Method, path := req.Path }],
          Outcome.wrote { status := StatusInternalServerError, body := none }) := by
  cases o <;> rfl

theorem runChain_snd (ms : List Middleware) (o : Outcome) (req : Request) (log1 log2 : Log) :
    (runChain ms o req log1).2 = (runChain ms o req log2).2 := by
  induction ms with
  | nil => rfl
  | cons m ms ih =>
    cases m with
    | Logger =>
      simp only [runChain]
      generalize runChain ms o req log1 = a at ih
      generalize runChain ms o req log2 = b at ih
      obtain ⟨la, oa⟩ := a
      obtain ⟨lb, ob⟩ := b
      simp only at ih
      subst ih
      cases oa <;> rfl
    | Recovery =>
      simp only [runChain]
      generalize runChain ms o req log1 = a at ih
      generalize runChain ms o req log2 = b at ih
      obtain ⟨la, oa⟩ := a
      obtain ⟨lb, ob⟩ := b
      simp only at ih
      subst ih
      cases oa <;> rfl

theorem handleHTTPRequest_outcome (prog : Program) (e : Engine) (req : Request)
    (log1 log2 : Log) :
    (e.handleHTTPRequest prog req log1).2.2 = (e.handleHTTPRequest prog req log2).2.2 := by
  simp only [Engine.handleHTTPRequest]
  cases findTree e.trees req.Method with
  | none => exact runChain_snd _ _ _ _ _
  | some root =>
    simp only
    cases (root.getValue req.Path.toList []).handlers with
    | some h => exact runChain_snd _ _ _ _ _
    | none =>
      simp only
      split
      · rfl
      · exact runChain_snd _ _ _ _ _

theorem handleHTTPRequest_engine (prog : Program) (e : Engine) (req : Request) (log : Log)
    (hwrite : ∀ h c e0, (prog h c e0).1 = e0) :
    (e.handleHTTPRequest prog req log).1 = e := by
  simp only [Engine.handleHTTPRequest]
  cases findTree e.trees req.Method with
  | none => rfl
  | some root =>
    simp only
    cases (root.getValue req.Path.toList []).handlers with
    | some h => exact hwrite _ _ _
    | none =>
      simp only
      split <;> rfl

theorem serveAll_engine (prog : Program) (hwrite : ∀ h c e0, (prog h c e0).1 = e0) (s : Server)
    (reqs : List Request) : (s.serveAll prog reqs).1.engine = s.engine := by
  induction reqs generalizing s with
  | nil => rfl
  | cons req reqs ih =>
    simp only [Server.serveAll]
    split
    · exact handleHTTPRequest_engine prog s.engine req s.log hwrite
    · rw [ih]
      exact handleHTTPRequest_engine prog s.engine req s.log hwrite

theorem code_writes_nothing (h : HandlerId) (c : Context) (e : Engine) : (code h c e).1 = e := by
  simp only [code]
  repeat' split
  all_goals first
    | rfl
    | (simp only [handleData]; split <;> rfl)

theorem code_reads_nothing (h : HandlerId) (c : Context) (e1 e2 : Engine) :
    (code h c e1).2 = (code h c e2).2 := by
  simp only [code]
  repeat' split
  all_goals first
    | rfl
    | (simp only [handleData]; split <;> rfl)

theorem default_handlers_responds (prog : Program) (e : Engine) (req : Request) (log : Log)
    (he : e.Handlers = [Middleware.Logger, Middleware.Recovery]) :
    ∃ resp, (e.handleHTTPRequest prog req log).2.2 = Outcome.wrote resp := by
  simp only [Engine.handleHTTPRequest, serveError, redirectTrailingSlash, he]
  cases findTree e.trees req.Method with
  | none => exact ⟨_, rfl⟩
  | some root =>
    simp only
    cases (root.getValue req.Path.toList []).handlers with
    | some h =>
      simp only [runChain_default]
      split <;> exact ⟨_, rfl⟩
    | none =>
      simp only
      split <;> exact ⟨_, rfl⟩

theorem main_all_served (reqs : List Request) (s : Server) (hs : s.engine = r) :
    (s.serveAll code reqs).2.length = reqs.length := by
  induction reqs generalizing s with
  | nil => rfl
  | cons req reqs ih =>
    obtain ⟨resp, hresp⟩ := default_handlers_responds code s.engine req s.log (by rw [hs]; rfl)
    have hnext : (s.ServeHTTP code req).1.engine = r := by
      simp only [Server.ServeHTTP]
      rw [handleHTTPRequest_engine code s.engine req s.log code_writes_nothing, hs]
    have hout : (s.ServeHTTP code req).2 = Outcome.wrote resp := hresp
    simp only [Server.serveAll, hout, List.length_cons, ih _ hnext]

/-- Claim C8: no handler of `main.go` writes to or reads from the engine it
could capture; the response to a request does not depend on the requests
served before it (after any two histories, all of whose requests are served,
the same request gets the same outcome, which is the outcome on the freshly
started server); and serving leaves the engine with its route table as it
was. -/
theorem stateless (before other : List Request) (req : Request) :
    (∀ (h : HandlerId) (c : Context) (e : Engine), (code h c e).1 = e) ∧
      (∀ (h : HandlerId) (c : Context) (e1 e2 : Engine), (code h c e1).2 = (code h c e2).2) ∧
      (main.serveAll code before).2.length = before.length ∧
      ((main.serveAll code before).1.ServeHTTP code req).2 =
        ((main.serveAll code other).1.ServeHTTP code req).2 ∧
      ((main.serveAll code before).1.ServeHTTP code req).2 = serve req ∧
      ((main.serveAll code before).1.ServeHTTP code req).1.engine = r := by
  have key : ∀ hist : List Request,
      ((main.serveAll code hist).1.ServeHTTP code req).2 = serve req := by
    intro hist
    simp only [Server.ServeHTTP, serve, serveAll_engine code code_writes_nothing]
    exact handleHTTPRequest_outcome _ _ _ _ _
  refine ⟨code_writes_nothing, code_reads_nothing, main_all_served before main rfl,
    by rw [key, key], key before, ?_⟩
  simp only [Server.ServeHTTP]
  rw [handleHTTPRequest_engine code _ req _ code_writes_nothing,
    serveAll_engine code code_writes_nothing]
  rfl

/-- A server whose health handler writes to the engine is not stateless: the
request `GET /search/` is redirected on the fresh server and gets 404 once
`GET /health` has been served. -/
theorem switch_not_stateless :
    (Server.ServeHTTP switchCode main
        { Method := "GET", Path := "/search/", Query := [], Header := [], Body := "" }).2 =
        Outcome.wrote { status := 301, body := none } ∧
      (Server.ServeHTTP switchCode
        (Server.serveAll switchCode main
          [{ Method := "GET", Path := "/health", Query := [], Header := [], Body := "" }]).1
        { Method := "GET", Path := "/search/", Query := [], Header := [], Body := "" }).2 =
        Outcome.wrote { status := 404, body := none } :=
  ⟨rfl, rfl⟩

theorem handleHTTPRequest_handlers (prog : Program) (e : Engine) (req : Request) (log : Log)
    (hkeep : ∀ h c e0, (prog h c e0).1.Handlers = e0.Handlers) :
    (e.handleHTTPRequest prog req log).1.Handlers = e.Handlers := by
  simp only [Engine.handleHTTPRequest]
  cases findTree e.trees req.Method with
  | none => rfl
  | some root =>
    simp only
    cases (root.getValue req.Path.toList []).handlers with
    | some h => exact hkeep _ _ _
    | none =>
      simp only
      split <;> rfl

theorem serveAll_responds (prog : Program)
    (hkeep : ∀ h c e0, (prog h c e0).1.Handlers = e0.Handlers) (reqs : List Request)
    (s : Server) (hs : s.engine.Handlers = [Middleware.Logger, Middleware.Recovery]) :
    (s.serveAll prog reqs).2.length = reqs.length ∧
      ∀ o ∈ (s.serveAll prog reqs).2, ∃ resp, o = Outcome.wrote resp := by
  induction reqs generalizing s with
  | nil => exact ⟨rfl, fun o ho => by simp [Server.serveAll] at ho⟩
  | cons req reqs ih =>
    obtain ⟨resp, hresp⟩ := default_handlers_responds prog s.engine req s.log hs
    have hnext : (s.ServeHTTP prog req).1.engine.Handlers =
        [Middleware.Logger, Middleware.Recovery] := by
      simp only [Server.ServeHTTP]
      rw [handleHTTPRequest_handlers prog s.engine req s.log hkeep, hs]
    have hout : (s.ServeHTTP prog req).2 = Outcome.wrote resp := hresp
    obtain ⟨hlen, hall⟩ := ih _ hnext
    simp only [Server.serveAll, hout, List.length_cons, hlen, List.mem_cons]
    refine ⟨trivial, ?_⟩
    rintro o (ho | ho)
    · exact ⟨resp, ho⟩
    · exact hall o ho

/-- Claim C9: under the middleware of `gin.Default()`, and with handlers that
leave the middleware in place, a request whose handler raises a fault is
answered with status 500, and every request of a sequence that starts with it
is served and gets a response: the process is not terminated. -/
theorem panic_recovered (trees : List MethodTree) (prog : Program) (req : Request) (log : Log)
    (root : Node) (h : HandlerId) (v : String) (later : List Request)
    (hkeep : ∀ h0 c e0, (prog h0 c e0).1.Handlers = e0.Handlers)
    (htree : findTree trees req.Method = some root)
    (hfound : (root.getValue req.Path.toList []).handlers = some h)
    (hpanic : (prog h { Request := req, Params := (root.getValue req.Path.toList []).params }
      { Default with trees := trees }).2 = Outcome.panicked v) :
    (Server.ServeHTTP prog { engine := { Default with trees := trees }, log := log } req).2 =
        Outcome.wrote { status := 500, body := none } ∧
      (Server.serveAll prog { engine := { Default with trees := trees }, log := log }
          (req :: later)).2.length = later.length + 1 ∧
      ∀ o ∈ (Server.serveAll prog { engine := { Default with trees := trees }, log := log }
          (req :: later)).2, ∃ resp, o = Outcome.wrote resp := by
  have hall := serveAll_responds prog hkeep (req :: later)
    { engine := { Default with trees := trees }, log := log } rfl
  refine ⟨?_, hall.1, hall.2⟩
  simp only [Server.ServeHTTP, Engine.handleHTTPRequest, Default, htree, hfound]
  have hp : (prog h { Request := req, Params := (root.getValue req.Path.toList []).params }
      { Handlers := [Middleware.Logger, Middleware.Recovery], trees := trees,
        RedirectTrailingSlash := true }).2 = Outcome.panicked v := hpanic
  simp only [hp, runChain_default]
  rfl

/-- Without the recovery middleware (`gin.New()`), a fault of a handler leaves
the chain: the process is terminated and the request after it is not served. -/
theorem unrecovered_panic_stops :
    (Server.serveAll boomCode { engine := { New with trees := boomTrees }, log := [] }
        [{ Method := "GET", Path := "/boom", Query := [], Header := [], Body := "" },
         { Method := "GET", Path := "/other", Query := [], Header := [], Body := "" }]).2.length
      = 1 :=
  rfl

theorem Decode_ok_kind (body : String) (m : GoMap) (h : Decode body = Except.ok m) :
    objectOrNull body = true := by
  unfold Decode at h
  unfold objectOrNull
  split at h
  · split at h <;> cases h
  · cases h
  · cases h
  · rename_i v rest hv
    rw [hv]
    cases v <;> simp [unmarshal] at h ⊢

/-- Claim C10, amended: a POST request to `/data` whose body does not begin with
a JSON object or `null` (so in particular a body whose top-level value is an
array, a string, a number or a boolean) is answered with status 400 and the
single entry `error`, with a non-empty message; hence status 200 is returned
only for bodies whose top-level value is an object or `null`. -/
theorem data_rejects_non_object (query header : List (String × String)) (body : String)
    (hkind : objectOrNull body = false) :
    ∃ msg, msg ≠ "" ∧
      serve { Method := "POST", Path := "/data", Query := query, Header := header, Body := body } =
        Outcome.wrote { status := 400, body := some [("error", Value.str msg)] } := by
  cases hd : Decode body with
  | ok m =>
    have := Decode_ok_kind body m hd
    rw [hkind] at this
    cases this
  | error e =>
    refine ⟨e.Error, Decode_error_ne_empty body e hd, ?_⟩
    rw [serve_data]
    simp only [handleData, Context.ShouldBindJSON, hd]
    rfl

theorem scanElements_array (fuel depth : Nat) (acc : List Tree) (input : List Char)
    (v : Tree) (rest : List Char)
    (h : scanElements fuel depth acc input = Except.ok (v, rest)) : ∃ xs, v = Tree.array xs := by
  induction fuel generalizing acc input with
  | zero => simp [scanElements] at h
  | succ fuel ih =>
    simp only [scanElements] at h
    repeat' split at h
    all_goals first
      | contradiction
      | (cases h; exact ⟨_, rfl⟩)
      | exact ih _ _ h

theorem scanValue_first (fuel depth : Nat) (input : List Char) (c : Char) (cs : List Char)
    (hskip : skipSpace input = c :: cs) (hc : c ≠ '{') (hn : c ≠ 'n') (v : Tree)
    (rest : List Char) (h : scanValue fuel depth input = Except.ok (v, rest)) :
    v ≠ Tree.null ∧ ∀ ms, v ≠ Tree.object ms := by
  cases fuel with
  | zero => simp [scanValue] at h
  | succ fuel =>
    simp only [scanValue, hskip, hc, hn, if_false] at h
    repeat' split at h
    all_goals first
      | contradiction
      | (cases h; exact ⟨by simp, by simp⟩)
      | (obtain ⟨xs, rfl⟩ := scanElements_array _ _ _ _ _ _ h; exact ⟨by simp, by simp⟩)

theorem objectOrNull_first (body : String) (c : Char) (cs : List Char)
    (hskip : skipSpace body.toList = c :: cs) (hc : c ≠ '{') (hn : c ≠ 'n') :
    objectOrNull body = false := by
  unfold objectOrNull
  split
  · rename_i ms rest hv
    exact absurd rfl ((scanValue_first _ _ _ c cs hskip hc hn _ _ hv).2 ms)
  · rename_i rest hv
    exact absurd rfl (scanValue_first _ _ _ c cs hskip hc hn _ _ hv).1
  · rfl

/-! ## Evaluations at concrete requests -/

/-- Counterexample to claim C1 as stated: for the empty name and for a name
with a slash the route does not match and the status is 404. -/
theorem user_route_rejects :
    serve { Method := "GET", Path := "/user/" ++ "", Query := [], Header := [], Body := "" } =
        Outcome.wrote { status := 404, body := none } ∧
      serve { Method := "GET", Path := "/user/" ++ "a/b", Query := [], Header := [], Body := "" } =
        Outcome.wrote { status := 404, body := none } :=
  ⟨rfl, rfl⟩

/-- Witness of `user_greeting`: `GET /user/alice`. -/
theorem user_greeting_witness :
    serve { Method := "GET", Path := "/user/" ++ "alice", Query := [], Header := [], Body := "" } =
      Outcome.wrote
        { status := 200,
          body := some [("message", Value.str ("Hello, " ++ "alice" ++ "!")),
                        ("user", Value.str "alice")] } :=
  user_greeting "alice" [] [] "" (by decide) (by decide)

/-- Examples of claim C2: no parameters, and `?q=foo&limit=5`. -/
theorem search_examples :
    serve { Method := "GET", Path := "/search", Query := [], Header := [], Body := "" } =
        Outcome.wrote
          { status := 200, body := some [("query", Value.str ""), ("limit", Value.str "10")] } ∧
      serve { Method := "GET", Path := "/search", Query := [("q", "foo"), ("limit", "5")],
              Header := [], Body := "" } =
        Outcome.wrote
          { status := 200, body := some [("query", Value.str "foo"), ("limit", Value.str "5")] } :=
  ⟨rfl, rfl⟩

/-- Witness of `data_echo`: the body `{"a":1}`; the number `1` is stored as the
`float64` value 1. -/
theorem data_echo_witness :
    Context.ShouldBindJSON
        { Request := { Method := "POST", Path := "/data", Query := [], Header := [],
                       Body := "\x7b\"a\":1\x7d" },
          Params := [] } =
        Except.ok (some [("a", Value.number { neg := false, mant := 1, exp := 0 })]) ∧
      serve { Method := "POST", Path := "/data", Query := [], Header := [],
              Body := "\x7b\"a\":1\x7d" } =
        Outcome.wrote
          { status := 200,
            body := some [("message", Value.str "Data received successfully"),
                          ("data", Value.object
                            [("a", Value.number { neg := false, mant := 1, exp := 0 })])] } :=
  data_echo [] [] "\x7b\"a\":1\x7d" [("a", Tree.number "1")] []
    [("a", Value.number { neg := false, mant := 1, exp := 0 })] rfl rfl

/-- Examples of claim C3: a nested object with an array is echoed member by
member; a repeated key keeps its last value; the literals `1.0` and `1` are the
same `float64`, and `12345678901234567890` is stored as the nearest `float64`,
`6028163525993441 * 2^11`. -/
theorem data_echo_examples :
    serve { Method := "POST", Path := "/data", Query := [], Header := [],
            Body := "\x7b\"k\":\x7b\"x\":[true,null,\"s\"]\x7d,\"n\":-0.5\x7d" } =
        Outcome.wrote
          { status := 200,
            body := some [("message", Value.str "Data received successfully"),
                          ("data", Value.object
                            [("k", Value.object
                                [("x", Value.array
                                  [Value.bool true, Value.null, Value.str "s"])]),
                             ("n", Value.number { neg := true, mant := 1, exp := -1 })])] } ∧
      serve { Method := "POST", Path := "/data", Query := [], Header := [],
              Body := "\x7b\"a\":\"x\",\"a\":\"y\"\x7d" } =
        Outcome.wrote
          { status := 200,
            body := some [("message", Value.str "Data received successfully"),
                          ("data", Value.object [("a", Value.str "y")])] } ∧
      serve { Method := "POST", Path := "/data", Query := [], Header := [],
              Body := "\x7b\"a\":1.0\x7d" } =
        serve { Method := "POST", Path := "/data", Query := [], Header := [],
                Body := "\x7b\"a\":1\x7d" } ∧
      serve { Method := "POST", Path := "/data", Query := [], Header := [],
              Body := "\x7b\"a\":12345678901234567890\x7d" } =
        Outcome.wrote
          { status := 200,
            body := some [("message", Value.str "Data received successfully"),
                          ("data", Value.object
                            [("a", Value.number
                              { neg := false, mant := 6028163525993441, exp := 11 })])] } :=
  ⟨rfl, rfl, rfl, rfl⟩

/-- Counterexample to claim C4 as stated: the body `{"a":1}xyz` is not valid
JSON, and the response has status 200 with the object before `xyz` echoed: the
decoder reads the first value of the body and not what follows it. -/
theorem data_trailing_text_accepted :
    validJSON "\x7b\"a\":1\x7dxyz" = false ∧
      serve { Method := "POST", Path := "/data", Query := [], Header := [],
              Body := "\x7b\"a\":1\x7dxyz" } =
        Outcome.wrote
          { status := 200,
            body := some [("message", Value.str "Data received successfully"),
                          ("data", Value.object
                            [("a", Value.number { neg := false, mant := 1, exp := 0 })])] } :=
  ⟨rfl, rfl⟩

/-- Witness of `data_parse_error`: the body `not json`. -/
theorem data_parse_error_witness :
    (validJSON "not json" = false ∧ objectOrNull "not json" = false) ∧
      ∃ e, Context.ShouldBindJSON
            { Request := { Method := "POST", Path := "/data", Query := [], Header := [],
                           Body := "not json" },
              Params := [] } = Except.error e ∧
        (e = DecodeError.EOF ∨ e = DecodeError.ErrUnexpectedEOF ∨
          (∃ c context, e = DecodeError.SyntaxError
            ("invalid character " ++ quoteChar (firstByte c) ++ " " ++ context)) ∨
          ∃ kind, e = DecodeError.UnmarshalTypeError kind mapTypeName) ∧
        e.Error ≠ "" ∧
        serve { Method := "POST", Path := "/data", Query := [], Header := [],
                Body := "not json" } =
          Outcome.wrote { status := 400, body := some [("error", Value.str e.Error)] } ∧
        keys [("error", Value.str e.Error)] = ["error"] ∧
        H.get [("error", Value.str e.Error)] "message" = none ∧
        H.get [("error", Value.str e.Error)] "data" = none :=
  ⟨⟨rfl, rfl⟩, data_parse_error [] [] "not json" ⟨rfl, rfl⟩⟩

/-- Examples of claim C4: the messages for the bodies `not json`, the empty
body, `{"a":` and `[1]xyz`. -/
theorem data_parse_error_examples :
    serve { Method := "POST", Path := "/data", Query := [], Header := [], Body := "not json" } =
        Outcome.wrote
          { status := 400,
            body := some [("error", Value.str
              "invalid character 'o' in literal null (expecting 'u')")] } ∧
      serve { Method := "POST", Path := "/data", Query := [], Header := [], Body := "" } =
        Outcome.wrote { status := 400, body := some [("error", Value.str "EOF")] } ∧
      serve { Method := "POST", Path := "/data", Query := [], Header := [],
              Body := "\x7b\"a\":" } =
        Outcome.wrote { status := 400, body := some [("error", Value.str "unexpected EOF")] } ∧
      serve { Method := "POST", Path := "/data", Query := [], Header := [], Body := "[1]xyz" } =
        Outcome.wrote
          { status := 400,
            body := some [("error", Value.str
              "json: cannot unmarshal array into Go value of type map[string]interface \x7b\x7d")] } :=
  ⟨rfl, rfl, rfl, rfl⟩

/-- Counterexample to claim C5 as stated: `GET /health/` matches none of the
five routes and is answered with status 301, not 404. -/
theorem slash_variant_redirected :
    matchesRoute { Method := "GET", Path := "/health/", Query := [], Header := [], Body := "" } =
        false ∧
      serve { Method := "GET", Path := "/health/", Query := [], Header := [], Body := "" } =
        Outcome.wrote { status := 301, body := none } :=
  ⟨by decide, rfl⟩

/-- Witness of `unmatched_status`: `GET /unknown-path`, `GET /data` and
`POST /health` match no route and get status 404. -/
theorem unmatched_status_witness :
    serve { Method := "GET", Path := "/unknown-path", Query := [], Header := [], Body := "" } =
        Outcome.wrote { status := 404, body := none } ∧
      serve { Method := "GET", Path := "/data", Query := [], Header := [], Body := "" } =
        Outcome.wrote { status := 404, body := none } ∧
      serve { Method := "POST", Path := "/health", Query := [], Header := [], Body := "" } =
        Outcome.wrote { status := 404, body := none } :=
  ⟨unmatched_status _ (by decide), unmatched_status _ (by decide), unmatched_status _ (by decide)⟩

/-- Witness of `panic_recovered`: an engine from `gin.Default()` with the route
`/boom`, whose handler raises a fault, followed by a request to `/other`. -/
theorem panic_recovered_witness :
    (Server.ServeHTTP boomCode { engine := { Default with trees := boomTrees }, log := [] }
        { Method := "GET", Path := "/boom", Query := [], Header := [], Body := "" }).2 =
        Outcome.wrote { status := 500, body := none } ∧
      (Server.serveAll boomCode { engine := { Default with trees := boomTrees }, log := [] }
          ({ Method := "GET", Path := "/boom", Query := [], Header := [], Body := "" } ::
            [{ Method := "GET", Path := "/other", Query := [], Header := [], Body := "" }])).2.length
        = [{ Method := "GET", Path := "/other", Query := [], Header := [],
             Body := "" : Request }].length + 1 ∧
      ∀ o ∈ (Server.serveAll boomCode { engine := { Default with trees := boomTrees }, log := [] }
          ({ Method := "GET", Path := "/boom", Query := [], Header := [], Body := "" } ::
            [{ Method := "GET", Path := "/other", Query := [], Header := [], Body := "" }])).2,
        ∃ resp, o = Outcome.wrote resp :=
  panic_recovered boomTrees boomCode
    { Method := "GET", Path := "/boom", Query := [], Header := [], Body := "" } []
    (Node.mk "/boom".toList [] false NodeType.root [] (some "boom")) "boom" "boom"
    [{ Method := "GET", Path := "/other", Query := [], Header := [], Body := "" }]
    (fun _ _ _ => rfl) rfl rfl rfl

/-- Counterexample to claim C10 as stated: the body `null` has the top-level
value `null`, which is not an object, and the response has status 200 with
`data = null`. -/
theorem data_null_accepted :
    readValue "null".toList = Except.ok (Tree.null, []) ∧
      serve { Method := "POST", Path := "/data", Query := [], Header := [], Body := "null" } =
        Outcome.wrote
          { status := 200,
            body := some [("message", Value.str "Data received successfully"),
                          ("data", Value.null)] } :=
  ⟨rfl, rfl⟩

/-- Witness of `data_rejects_non_object`: the body `[1,2]`. -/
theorem data_rejects_non_object_witness :
    objectOrNull "[1,2]" = false ∧
      ∃ msg, msg ≠ "" ∧
        serve { Method := "POST", Path := "/data", Query := [], Header := [], Body := "[1,2]" } =
          Outcome.wrote { status := 400, body := some [("error", Value.str msg)] } :=
  ⟨rfl, data_rejects_non_object [] [] "[1,2]" rfl⟩

set_option maxRecDepth 100000 in
set_option exponentiation.threshold 2000 in
/-- A body that is a JSON object with a number outside the range of `float64`
(here `4e309`) is rejected by the decoder: binding fails and the status is
400. -/
theorem data_out_of_range_example :
    serve { Method := "POST", Path := "/data", Query := [], Header := [],
            Body := "\x7b\"a\":400000000000000000000000000000000000000000000000000000000000e250\x7d" } =
      Outcome.wrote
        { status := 400,
          body := some [("error", Value.str
            ("json: cannot unmarshal number " ++
              "400000000000000000000000000000000000000000000000000000000000e250" ++
              " into Go value of type float64"))] } :=
  rfl

/-- Bodies with a top-level array, string, number or boolean: each is answered
with status 400 and the type error of the decoder. -/
theorem data_non_object_examples :
    serve { Method := "POST", Path := "/data", Query := [], Header := [], Body := "[1,2]" } =
        Outcome.wrote
          { status := 400,
            body := some [("error", Value.str
              "json: cannot unmarshal array into Go value of type map[string]interface \x7b\x7d")] } ∧
      serve { Method := "POST", Path := "/data", Query := [], Header := [], Body := "\"x\"" } =
        Outcome.wrote
          { status := 400,
            body := some [("error", Value.str
              "json: cannot unmarshal string into Go value of type map[string]interface \x7b\x7d")] } ∧
      serve { Method := "POST", Path := "/data", Query := [], Header := [], Body := "3" } =
        Outcome.wrote
          { status := 400,
            body := some [("error", Value.str
              "json: cannot unmarshal number into Go value of type map[string]interface \x7b\x7d")] } ∧
      serve { Method := "POST", Path := "/data", Query := [], Header := [], Body := "true" } =
        Outcome.wrote
          { status := 400,
            body := some [("error", Value.str
              "json: cannot unmarshal bool into Go value of type map[string]interface \x7b\x7d")] } :=
  ⟨rfl, rfl, rfl, rfl⟩

end Main
